import Mathlib

/-!
Verification of the ACORD 25 layout-aware parser (`app/services/parser.py`).

The parser is embedded shallowly: Python strings become `Str := List Char`,
optional table cells become `Option Str`, Python dicts with insertion order
become association lists, Python sets of strings become duplicate-free lists
(membership is all the source relies on; where the source joins a set into a
string for substring tests, insertion order is used), and the one place where
the source can raise (`IndexError` on `row[0]` for an empty row inside
`_parse_header_table`) is modelled with `Except Unit`.

Regular expressions from the source are embedded as bespoke total functions;
each carries a comment with the original pattern.  Python semantics that the
embeddings reproduce: `re.match` anchors only at the start, `$` also matches
just before a single trailing newline, `str.strip` strips ASCII whitespace,
`str.title` upcases a letter exactly when the previous character is not a
letter, and `datetime.strptime`'s `%m`/`%d` accept one- or two-digit values.
-/

/-- Python strings, embedded as lists of characters. -/
abbrev Str := List Char

/-- A table cell as produced by pdfplumber: absent (`None`) or a string. -/
abbrev Cell := Option Str

/-- A table row. -/
abbrev Row := List Cell

/-- A pdfplumber table: a list of rows. -/
abbrev Table := List Row

/-- Python `\s` on the ASCII range (space, tab, newline, CR, VT, FF). -/
def pyIsSpace (c : Char) : Bool :=
  c = ' ' || c = '\t' || c = '\n' || c = '\r' || c = '\x0b' || c = '\x0c'

/-- ASCII digit test (`\d` on the inputs in scope). -/
def isDigit (c : Char) : Bool := '0' ≤ c && c ≤ '9'

/-- ASCII letter test. -/
def isAlpha (c : Char) : Bool := ('a' ≤ c && c ≤ 'z') || ('A' ≤ c && c ≤ 'Z')

/-- Python `\w` on the ASCII range. -/
def isWordChar (c : Char) : Bool := isAlpha c || isDigit c || c = '_'

/-- ASCII upcasing of one character (Python `str.upper` on ASCII). -/
def toUpperChar (c : Char) : Char :=
  if 'a' ≤ c && c ≤ 'z' then Char.ofNat (c.toNat - 32) else c

/-- ASCII downcasing of one character. -/
def toLowerChar (c : Char) : Char :=
  if 'A' ≤ c && c ≤ 'Z' then Char.ofNat (c.toNat + 32) else c

/-- Python `str.upper` (ASCII). -/
def pyUpper (s : Str) : Str := s.map toUpperChar

/-- Python `str.strip()`: drop leading and trailing whitespace. -/
def pyStrip (s : Str) : Str :=
  ((s.dropWhile pyIsSpace).reverse.dropWhile pyIsSpace).reverse

/-- Helper for `re.sub(r"\s+", " ", ...)`: collapse each whitespace run to one
space.  The flag records whether the previous character was whitespace. -/
def collapseWsGo : Bool → Str → Str
  | _, [] => []
  | inWs, c :: rest =>
    if pyIsSpace c then
      if inWs then collapseWsGo true rest else ' ' :: collapseWsGo true rest
    else c :: collapseWsGo false rest

/-- `_clean` on a string value: `re.sub(r"\s+", " ", val).strip()`, with empty
input mapped to the empty string. -/
def pyCleanStr (s : Str) : Str :=
  if s = [] then [] else pyStrip (collapseWsGo false s)

/-- `_clean` on an optional cell (`None` behaves like the empty string). -/
def cellClean (c : Cell) : Str :=
  match c with
  | none => []
  | some s => pyCleanStr s

/-- Python `str.split("\n")`. -/
def splitOnChar (sep : Char) : Str → List Str
  | [] => [[]]
  | c :: rest =>
    if c = sep then [] :: splitOnChar sep rest
    else
      match splitOnChar sep rest with
      | h :: t => (c :: h) :: t
      | [] => [[c]]

/-- Python `needle in hay` (substring containment). -/
def strContains (hay needle : Str) : Bool :=
  needle.isPrefixOf hay ||
    match hay with
    | [] => false
    | _ :: t => strContains t needle

/-- Python `", ".join(parts)` and friends. -/
def joinWith (sep : Str) : List Str → Str
  | [] => []
  | [x] => x
  | x :: rest => x ++ sep ++ joinWith sep rest

/-- `re.search(r"[A-Za-z]{3,}", line)`: three consecutive ASCII letters. -/
def has3Letters : Str → Bool
  | a :: b :: c :: rest =>
    (isAlpha a && isAlpha b && isAlpha c) || has3Letters (b :: c :: rest)
  | _ => false

/-- `$`-anchored full match in Python also succeeds just before one trailing
newline; `withTrailingNl body` applies a full-string test with that nuance. -/
def withTrailingNl (body : Str → Bool) (s : Str) : Bool :=
  body s || (s.getLast? = some '\n' && body s.dropLast)

/-- Fuelled worker for `str.replace` (all non-overlapping occurrences, left to
right).  Fuel `s.length` always suffices since every step consumes at least
one character of the subject. -/
def strReplaceF (pat rep : Str) : Nat → Str → Str
  | 0, s => s
  | _, [] => []
  | fuel + 1, c :: rest =>
    if pat ≠ [] && pat.isPrefixOf (c :: rest) then
      rep ++ strReplaceF pat rep fuel ((c :: rest).drop pat.length)
    else c :: strReplaceF pat rep fuel rest

/-- Python `s.replace(pat, rep)` for nonempty `pat`. -/
def strReplace (s pat rep : Str) : Str := strReplaceF pat rep s.length s

/-- Python `str.title()` (ASCII): a letter is upcased exactly when the
previous character is not a letter, and downcased otherwise. -/
def pyTitleGo : Bool → Str → Str
  | _, [] => []
  | prevAlpha, c :: rest =>
    (if isAlpha c then (if prevAlpha then toLowerChar c else toUpperChar c) else c)
      :: pyTitleGo (isAlpha c) rest

/-- Python `str.title()`. -/
def pyTitle (s : Str) : Str := pyTitleGo false s

/-! ## `_parse_date` — date normalization -/

/-- Numeric value of an ASCII digit character. -/
def digitVal (c : Char) : Nat := c.toNat - 48

/-- Value of a digit run (most significant first). -/
def segVal (ds : Str) : Nat := ds.foldl (fun a c => a * 10 + digitVal c) 0

/-- Gregorian leap year, as Python's `datetime` uses. -/
def isLeap (y : Nat) : Bool := (y % 4 = 0 && y % 100 ≠ 0) || y % 400 = 0

/-- Days in a month (Python `datetime` calendar). -/
def daysInMonth (y m : Nat) : Nat :=
  if m = 2 then (if isLeap y then 29 else 28)
  else if m = 4 || m = 6 || m = 9 || m = 11 then 30
  else 31

/-- The dates `datetime(year, month, day)` accepts (`MINYEAR = 1`,
`MAXYEAR = 9999`). -/
def validDateB (y m d : Nat) : Bool :=
  1 ≤ y && y ≤ 9999 && 1 ≤ m && m ≤ 12 && 1 ≤ d && d ≤ daysInMonth y m

/-- The ASCII digit character for `n < 10`. -/
def digitChar (n : Nat) : Char := Char.ofNat (48 + n)

/-- Two-digit zero-padded rendering (`%02d`). -/
def render2 (n : Nat) : Str := [digitChar (n / 10), digitChar (n % 10)]

/-- Unpadded rendering of a value below 100 (`M` / `D` forms). -/
def render1or2 (n : Nat) : Str := if n < 10 then [digitChar n] else render2 n

/-- Four-digit zero-padded rendering (`%04d`). -/
def render4 (y : Nat) : Str :=
  [digitChar (y / 1000), digitChar (y / 100 % 10), digitChar (y / 10 % 10),
   digitChar (y % 10)]

/-- `date(y, m, d).isoformat()` for years up to 9999. -/
def isoStr (y m d : Nat) : Str := render4 y ++ '-' :: render2 m ++ '-' :: render2 d

/-- `datetime(y, m, d).date().isoformat()` guarded by the constructor's
validation (`ValueError` becomes `none`). -/
def mkDate (y m d : Nat) : Option Str :=
  if validDateB y m d then some (isoStr y m d) else none

/-- strptime `%m` / `%d` component: a digit run of length 1 or 2 whose value
lies in `1..hi` (the CPython `_strptime` patterns `1[0-2]|0[1-9]|[1-9]` and
`3[01]|[12]\d|0[1-9]|[1-9]`). -/
def seg12Ok (hi : Nat) (ds : Str) : Bool :=
  ds.all isDigit && (ds.length = 1 || ds.length = 2) &&
    1 ≤ segVal ds && segVal ds ≤ hi

/-- strptime with format `%m<sep>%d<sep>%Y` (whole-string match; the literal
separator must follow each maximal digit run, and the year is exactly four
digits ending the string). -/
def strpMDY (sep : Char) (s : Str) : Option Str :=
  let mSeg := s.takeWhile isDigit
  match s.drop mSeg.length with
  | c :: rest1 =>
    if c = sep && seg12Ok 12 mSeg then
      let dSeg := rest1.takeWhile isDigit
      match rest1.drop dSeg.length with
      | c2 :: rest2 =>
        if c2 = sep && seg12Ok 31 dSeg then
          let ySeg := rest2.takeWhile isDigit
          if rest2.drop ySeg.length = [] && ySeg.length = 4 then
            mkDate (segVal ySeg) (segVal mSeg) (segVal dSeg)
          else none
        else none
      | [] => none
    else none
  | [] => none

/-- strptime with format `%Y-%m-%d`. -/
def strpYMD (s : Str) : Option Str :=
  let ySeg := s.takeWhile isDigit
  match s.drop ySeg.length with
  | '-' :: rest1 =>
    if ySeg.length = 4 then
      let mSeg := rest1.takeWhile isDigit
      match rest1.drop mSeg.length with
      | '-' :: rest2 =>
        if seg12Ok 12 mSeg then
          let dSeg := rest2.takeWhile isDigit
          if rest2.drop dSeg.length = [] && seg12Ok 31 dSeg then
            mkDate (segVal ySeg) (segVal mSeg) (segVal dSeg)
          else none
        else none
      | _ => none
    else none
  | _ => none

/-- `\d{1,2}` followed by a literal `/` (greedy, with the regex engine's
backtracking: two digits are preferred, one digit is tried if the slash does
not follow).  Returns the value and the remainder after the slash. -/
def grab12Slash : Str → Option (Nat × Str)
  | a :: b :: rest =>
    if isDigit a then
      if isDigit b then
        match rest with
        | '/' :: r => some (digitVal a * 10 + digitVal b, r)
        | _ => none
      else if b = '/' then some (digitVal a, rest)
      else none
    else none
  | _ => none

/-- The fallback `re.match(r"(\d{1,2})/(\d{1,2})/(\d{4})", raw)`: a prefix
match (trailing characters after the year are allowed), followed by the
`datetime` validity check. -/
def fallbackSlashDate (s : Str) : Option Str :=
  match grab12Slash s with
  | none => none
  | some (m, rest1) =>
    match grab12Slash rest1 with
    | none => none
    | some (d, rest2) =>
      match rest2 with
      | y1 :: y2 :: y3 :: y4 :: _ =>
        if isDigit y1 && isDigit y2 && isDigit y3 && isDigit y4 then
          mkDate (segVal [y1, y2, y3, y4]) m d
        else none
      | _ => none

/-- `_parse_date`: try `%m/%d/%Y`, `%Y-%m-%d`, `%m-%d-%Y` as full-string
matches, then the permissive slash prefix pattern; `None` on total failure. -/
def pyParseDate (raw : Str) : Option Str :=
  if raw = [] then none
  else
    let t := pyStrip raw
    match strpMDY '/' t with
    | some r => some r
    | none =>
      match strpYMD t with
      | some r => some r
      | none =>
        match strpMDY '-' t with
        | some r => some r
        | none => fallbackSlashDate t

example : pyParseDate ("7/1/2024".data) = some ("2024-07-01".data) := by decide
example : pyParseDate ("2024-07-01".data) = some ("2024-07-01".data) := by decide
example : pyParseDate ("07-01-2024".data) = some ("2024-07-01".data) := by decide
example : pyParseDate ("13/45/2024".data) = none := by decide
example : pyParseDate ("".data) = none := by decide
example : pyParseDate ("02/30/2024".data) = none := by decide
example : pyParseDate ("07/01/2024x".data) = some ("2024-07-01".data) := by decide
example : pyParseDate ("2024-7-1".data) = some ("2024-07-01".data) := by decide

/-! ## Column locator and policy-grid helpers -/

/-- The five semantic column roles resolved by `_find_column_indices`. -/
structure Cols where
  pn : Nat
  eff : Nat
  exp : Nat
  limits : Nat
  ltr : Nat
deriving Repr, DecidableEq

/-- Partial role assignment accumulated while scanning the header row. -/
structure ColsAcc where
  pn : Option Nat
  eff : Option Nat
  exp : Option Nat
  limits : Option Nat
  ltr : Option Nat
deriving Repr, DecidableEq

/-- One header cell of `_find_column_indices`: the `elif` chain assigns at
most one role per cell; `pn`/`eff`/`exp`/`ltr` overwrite, `limits` keeps the
first occurrence (`setdefault`). -/
def colsStep (acc : ColsAcc) (i : Nat) (c : Cell) : ColsAcc :=
  match c with
  | none => acc
  | some s =>
    if s = [] then acc
    else
      let u := pyUpper s
      if strContains u ("POLICY NUMBER".data) then { acc with pn := some i }
      else if strContains u ("POLICY EFF".data) then { acc with eff := some i }
      else if strContains u ("POLICY EXP".data) then { acc with exp := some i }
      else if strContains u ("LIMITS".data) then
        match acc.limits with
        | none => { acc with limits := some i }
        | some _ => acc
      else if strContains u ("INSR".data) && strContains u ("LTR".data) then
        { acc with ltr := some i }
      else acc

/-- Index-passing scan over the header row's cells. -/
def colsGo (i : Nat) (acc : ColsAcc) : Row → ColsAcc
  | [] => acc
  | c :: rest => colsGo (i + 1) (colsStep acc i c) rest

/-- `_find_column_indices`: absent unless some cell carries `POLICY NUMBER`;
missing roles default to `pn+1` / `pn+2` / `exp+1` / `0`. -/
def find_column_indices (row : Row) : Option Cols :=
  let acc := colsGo 0 ⟨none, none, none, none, none⟩ row
  match acc.pn with
  | none => none
  | some pn =>
    let eff := acc.eff.getD (pn + 1)
    let exp := acc.exp.getD (pn + 2)
    some ⟨pn, eff, exp, acc.limits.getD (exp + 1), acc.ltr.getD 0⟩

/-- `_cell`: bounds-checked, truthiness-checked, stripped cell text. -/
def cellStr (row : Row) (col : Nat) : Str :=
  match row.getD col none with
  | none => []
  | some s => pyStrip s

/-- `_split_cell`: `[""]` for an empty cell, else the stripped nonempty
lines. -/
def split_cell (row : Row) (col : Nat) : List Str :=
  let raw := cellStr row col
  if raw = [] then [[]]
  else ((splitOnChar '\n' raw).map pyStrip).filter (fun l => l ≠ [])

/-- An apostrophe character (U+0027), used inside keyword literals. -/
def aposChar : Char := Char.ofNat 39

/-- `_INSURANCE_KEYWORDS` (a Python set; only membership via `any` is used,
so a list is a faithful model). -/
def INSURANCE_KEYWORDS : List Str :=
  [ "COMMERCIAL GENERAL LIABILITY".data
  , "AUTOMOBILE LIABILITY".data
  , "UMBRELLA LIAB".data
  , "EXCESS LIAB".data
  , "WORKERS COMPENSATION".data
  , "WORKERS".data ++ aposChar :: " COMPENSATION".data
  , "EMPLOYERS".data ++ aposChar :: " LIABILITY".data
  , "ERRORS & OMISSIONS".data
  , "ERRORS & OMMISIONS".data
  , "ERRORS AND OMISSIONS".data
  , "PROFESSIONAL LIABILITY".data
  , "CYBER LIABILITY".data
  , "3RD PARTY CRIME".data
  , "THIRD PARTY CRIME".data
  , "CRIME".data ]

/-- `_is_insurance_type`: the uppercased text contains a known keyword. -/
def is_insurance_type (text : Str) : Bool :=
  INSURANCE_KEYWORDS.any (fun kw => strContains (pyUpper text) kw)

/-- `re.sub(r"^[X✓☐☑]\s*", "", s)`: drop one leading checkbox glyph and the
whitespace after it (the `^` anchor fires at most once). -/
def stripCheckbox (s : Str) : Str :=
  match s with
  | c :: rest =>
    if c = 'X' || c = '✓' || c = '☐' || c = '☑' then rest.dropWhile pyIsSpace
    else s
  | [] => s

/-- `re.sub(r"\s*(CLAIMS-MADE|OCCUR).*$", "", s, flags=IGNORECASE)`: cut from
the whitespace run preceding the first case-insensitive occurrence of either
keyword to the end of the string. -/
def cutSubtypeNoise (s : Str) : Str :=
  cutGo [] s
where
  /-- `kept` is the reversed prefix retained so far. -/
  cutGo (kept : Str) : Str → Str
    | [] => kept.reverse
    | c :: rest =>
      if ("CLAIMS-MADE".data).isPrefixOf (pyUpper (c :: rest)) ||
         ("OCCUR".data).isPrefixOf (pyUpper (c :: rest)) then
        (kept.dropWhile pyIsSpace).reverse
      else cutGo (c :: kept) rest

/-- `_normalize_type`: first line, checkbox strip, sub-type cut, title case,
then the fixed replacement chain and the combined WC/EL collapse. -/
def normalize_type (raw : Str) : Str :=
  let mainLine := pyStrip ((splitOnChar '\n' raw).headD [])
  let mainLine := pyStrip (stripCheckbox mainLine)
  let mainLine := pyStrip (cutSubtypeNoise mainLine)
  let name := pyTitle mainLine
  let name := strReplace name (" And ".data) (" & ".data)
  let name := strReplace name ("Liab ".data) ("Liability ".data)
  let name := strReplace name ("Ommisions".data) ("Omissions".data)
  let name := strReplace name ("3Rd".data) ("3rd".data)
  let name := strReplace name ("Liability Liability".data) ("Liability".data)
  let name :=
    if strContains name ("Workers Compensation".data) &&
       strContains name ("Employers".data) then "Workers Compensation".data
    else name
  pyStrip name

example : normalize_type ("WORKERS COMPENSATION".data) = "Workers Compensation".data := by
  decide
example : normalize_type ("X UMBRELLA LIAB OCCUR".data) = "Umbrella Liab".data := by
  decide
example : normalize_type ("UMBRELLA LIAB CO".data) = "Umbrella Liability Co".data := by
  decide
example : normalize_type ("Other".data) = "Other".data := by decide

/-- The currency-amount test in `_collect_limits_range`:
`re.search(r"\d", txt) and ("$" in txt or re.match(r"^[\d,.\s$]+$", txt))`. -/
def currencyLike (txt : Str) : Bool :=
  txt.any isDigit &&
    (txt.contains '$' ||
      withTrailingNl
        (fun t => t ≠ [] && t.all fun c =>
          isDigit c || c = ',' || c = '.' || c = '$' || pyIsSpace c) txt)

/-- `re.sub(r"\s*\$\s*$", "", value)`: remove a trailing dollar sign together
with the whitespace around it (no-op when the last non-space character is not
`$`). -/
def stripTrailingDollar (s : Str) : Str :=
  match s.reverse.dropWhile pyIsSpace with
  | '$' :: r2 => (r2.dropWhile pyIsSpace).reverse
  | _ => s

/-- `re.sub(r"^\$\s*", "", value)`: remove a leading dollar sign and the
whitespace after it. -/
def stripLeadingDollar (s : Str) : Str :=
  match s with
  | '$' :: rest => rest.dropWhile pyIsSpace
  | _ => s

/-- The value clean-up applied before storing a limit
(`"$" + cleaned` when the cleaned string is nonempty). -/
def limitValueClean (v : Str) : Str := stripLeadingDollar (stripTrailingDollar v)

/-- The cell loop of `_collect_limits_range`: each non-empty, non-`"$"` cell
overwrites either the value slot (currency-looking) or the name slot. -/
def collectGo (row : Row) : List Nat → Str × Str → Str × Str
  | [], nv => nv
  | ci :: rest, (n, v) =>
    let txt := cellClean (row.getD ci none)
    if txt = [] || txt = ['$'] then collectGo row rest (n, v)
    else if currencyLike txt then collectGo row rest (n, txt)
    else collectGo row rest (txt, v)

/-- `_collect_limits_range`: scan from `limits_start` to the end of the row;
at most one name → value pair results. -/
def collect_limits_range (row : Row) (limitsStart : Nat) : List (Str × Str) :=
  if row.length ≤ limitsStart then []
  else
    let nv := collectGo row (List.range' limitsStart (row.length - limitsStart)) ([], [])
    if nv.1 ≠ [] && nv.2 ≠ [] then
      let value := limitValueClean (pyStrip nv.2)
      if value ≠ [] then [(nv.1, '$' :: value)] else []
    else []

/-- `_LIMITS_TYPE_MAP`: ordered (keyword set, inferred type) rules. -/
def LIMITS_TYPE_MAP : List (List Str × Str) :=
  [ (["GENERAL AGGREGATE".data, "PRODUCTS".data, "PERSONAL".data],
     "Commercial General Liability".data)
  , (["COMBINED SINGLE LIMIT".data], "Automobile Liability".data)
  , (["PER STATUTE".data, "E.L. EACH ACCIDENT".data, "E.L.EACHACCIDENT".data,
      "STATUTE".data], "Workers Compensation".data)
  , (["AGGREGATE".data], "Umbrella/Excess Liability".data) ]

/-- `_infer_type_from_limits`: join the accumulated limit names, upcase, and
take the first rule with a keyword occurring as a substring.  (The source
joins a Python set whose order is unspecified; insertion order is used.) -/
def infer_type_from_limits (names : List Str) : Str :=
  let upperNames := pyUpper (joinWith [' '] names)
  match LIMITS_TYPE_MAP.find? (fun rule =>
      rule.1.any fun kw => strContains upperNames (pyUpper kw)) with
  | some rule => rule.2
  | none => "Other".data

/-- `re.sub(r"\s+Y\s*/\s*N\s*$", "", line)`: drop a trailing `Y / N`
indicator (case-sensitive), including the whitespace run before the `Y`. -/
def stripYN (line : Str) : Str :=
  match (line.reverse.dropWhile pyIsSpace) with
  | 'N' :: r1 =>
    match r1.dropWhile pyIsSpace with
    | '/' :: r2 =>
      match r2.dropWhile pyIsSpace with
      | 'Y' :: r3 =>
        if r3 ≠ [] && pyIsSpace (r3.headD ' ') then
          (r3.dropWhile pyIsSpace).reverse
        else line
      | _ => line
    | _ => line
  | _ => line

/-- The prefix alternatives of the noise pattern in `_extract_type_names`
(compared case-insensitively). -/
def NOISE_PREFIXES : List Str :=
  [ "X".data, "Y".data, "N".data, "N/A".data, "DED".data, "RETENTION".data
  , "CLAIMS-MADE".data, "OCCUR".data, "POLICY".data, "PRO-".data, "JECT".data
  , "LOC".data, "ANY AUTO".data, "OWNED".data, "HIRED".data, "SCHEDULED".data
  , "NON-OWNED".data ]

/-- `re.match(r"^(X|Y|N|N/A|DED|RETENTION|CLAIMS-MADE|OCCUR|POLICY|PRO-|JECT
|LOC|GEN.L|ANY AUTO|OWNED|HIRED|SCHEDULED|NON-OWNED|If\b)|^[X✓☐☑\s]+$|^\$",
line, re.IGNORECASE)`: checkbox / sub-option noise lines. -/
def noiseLine (line : Str) : Bool :=
  let u := pyUpper line
  NOISE_PREFIXES.any (fun p => p.isPrefixOf u) ||
    -- `GEN.L`: the dot matches any character
    (match u with
     | 'G' :: 'E' :: 'N' :: _ :: 'L' :: _ => true
     | _ => false) ||
    -- `If\b`
    (("IF".data).isPrefixOf u &&
      (u.length = 2 || !isWordChar (u.getD 2 ' '))) ||
    -- `^[X✓☐☑\s]+$` (IGNORECASE also admits a lowercase x)
    withTrailingNl
      (fun t => t ≠ [] && t.all fun c =>
        c = 'X' || c = 'x' || c = '✓' || c = '☐' || c = '☑' || pyIsSpace c) line ||
    -- `^\$`
    (match line with
     | '$' :: _ => true
     | _ => false)

/-- `names[-1] = names[-1] + " " + line` for a nonempty list. -/
def appendToLast : List Str → Str → List Str
  | [], _ => []
  | [last], line => [last ++ ' ' :: line]
  | x :: rest, line => x :: appendToLast rest line

/-- The per-line body of `_extract_type_names`. -/
def extractTypeLine (names : List Str) (line0 : Str) : List Str :=
  let line := pyStrip line0
  if line = [] then names
  else
    let line := pyStrip (stripYN line)
    if noiseLine line then names
    else if !has3Letters line then names
    else if ("AND ".data).isPrefixOf (pyUpper line) && names ≠ [] then
      appendToLast names line
    else names ++ [line]

/-- `_extract_type_names`: split a raw type cell into individual insurance
type names, filtering checkbox noise and merging `AND ...` continuations. -/
def extract_type_names (raw : Str) : List Str :=
  (splitOnChar '\n' raw).foldl extractTypeLine []

/-- `re.match(r"^[A-F]$", s)`: a single letter A–F (with the `$`-before-one-
trailing-newline nuance). -/
def isAF (c : Char) : Bool := 'A' ≤ c && c ≤ 'F'

/-- See `isAF`. -/
def matchSingleLetter (s : Str) : Bool :=
  withTrailingNl (fun t => match t with
    | [c] => isAF c
    | _ => false) s

/-- Tail of `re.match(r"^[A-F](\n[A-F])*$", s)` after the first letter. -/
def lettersTailOk : Str → Bool
  | [] => true
  | ['\n'] => true
  | '\n' :: c :: rest => isAF c && lettersTailOk rest
  | _ => false

/-- `re.match(r"^[A-F](\n[A-F])*$", s)`: newline-joined single letters. -/
def matchLetterLines : Str → Bool
  | c :: rest => isAF c && lettersTailOk rest
  | [] => false

/-- `_find_type_in_row`: scan the cells strictly between the letter column
and the policy-number column for insurance-type text; as a fallback, test the
space-join of the whole region. -/
def find_type_in_row (cols : Cols) (row : Row) : Str :=
  let start := max (cols.ltr + 1) 1
  let idxs := List.range' start (cols.pn - start)
  match idxs.find? (fun ci =>
      cellStr row ci ≠ [] && is_insurance_type (cellStr row ci)) with
  | some ci => cellStr row ci
  | none =>
    let concat := joinWith [' '] (idxs.map (cellStr row))
    if is_insurance_type concat then concat else []

example : collect_limits_range [some ("PER STATUTE".data), some ("$1,000,000".data)] 0
    = [("PER STATUTE".data, "$1,000,000".data)] := by decide
example : infer_type_from_limits ["PER STATUTE".data] = "Workers Compensation".data := by
  decide
example : extract_type_names ("WORKERS COMPENSATION\nOther".data)
    = ["WORKERS COMPENSATION".data, "Other".data] := by decide
example : extract_type_names ("X\nCOMMERCIAL GENERAL LIABILITY\nCLAIMS-MADE".data)
    = ["COMMERCIAL GENERAL LIABILITY".data] := by decide

/-! ## `_parse_policy_table` — the policy grid state machine -/

/-- One emitted policy record (camelCase fields of the result dict). -/
structure Policy where
  typeOfInsurance : Str
  policyNumber : Str
  policyEffectiveDate : Str
  policyExpirationDate : Str
  limits : Option (List (Str × Str))
  insurerLetter : Option Str
deriving Repr, DecidableEq

/-- The dedup key `f"{type_display}|{policy_number}"`. -/
def policyKey (p : Policy) : Str := p.typeOfInsurance ++ '|' :: p.policyNumber

/-- Python `set.add` on the list model (no duplicates introduced). -/
def setAdd (s : List Str) (k : Str) : List Str :=
  if s.contains k then s else k :: s

/-- Python `set.discard` on the list model. -/
def setDiscard (s : List Str) (k : Str) : List Str := s.filter (fun x => x ≠ k)

/-- Python `set.update(keys)` on the list model (new keys appended, keeping
insertion order). -/
def setAddAll (s : List Str) (ks : List Str) : List Str :=
  ks.foldl setAdd s

/-- Python `dict.update`: existing keys keep their position and get the new
value; new keys are appended in order. -/
def dictSet (d : List (Str × Str)) (k v : Str) : List (Str × Str) :=
  if d.any (fun kv => kv.1 = k) then
    d.map (fun kv => if kv.1 = k then (k, v) else kv)
  else d ++ [(k, v)]

/-- Iterated `dictSet`, as `existing.update(new)` performs. -/
def dictUpdate (d new : List (Str × Str)) : List (Str × Str) :=
  new.foldl (fun acc kv => dictSet acc kv.1 kv.2) d

/-- `PolicyScanState`: the mutable scan state of `_parse_policy_table`. -/
structure ScanState where
  policies : List Policy
  seen : List Str
  typeQueue : List Str
  currentLetter : Str
  lastConsumedType : Str
  lastPolicyIdx : Option Nat
  pendingLimitNames : List Str
deriving Repr, DecidableEq

/-- The initial scan state. -/
def initScan : ScanState := ⟨[], [], [], [], [], none, []⟩

/-- Type detection: a found type cell replaces the pending queue when its
extracted names are nonempty. -/
def stepType (cols : Cols) (s : ScanState) (row : Row) : ScanState :=
  let rowType := find_type_in_row cols row
  if rowType ≠ [] then
    let names := extract_type_names rowType
    if names ≠ [] then { s with typeQueue := names } else s
  else s

/-- Insurer-letter detection: a letter-column cell of newline-joined letters
A–F becomes the carried current letter. -/
def stepLetter (cols : Cols) (s : ScanState) (row : Row) : ScanState :=
  let rowLetter := cellStr row cols.ltr
  if rowLetter ≠ [] && matchLetterLines rowLetter then
    { s with currentLetter := rowLetter }
  else s

/-- The continuation-row branch: merge the collected limits into the last
emitted policy, extend the pending limit-name set, and relabel an `"Other"`
policy when inference now succeeds (discarding the old dedup key and adding
the new one).  The out-of-range case of `policies[last_policy_idx]` is
unreachable (the index is always `len - 1` of a grown list) and returns the
state unchanged. -/
def contStep (s : ScanState) (rowLimits : List (Str × Str)) : ScanState :=
  match s.lastPolicyIdx with
  | none => s
  | some i =>
    match s.policies.get? i with
    | none => s
    | some p =>
      let merged := dictUpdate (p.limits.getD []) rowLimits
      let pending := setAddAll s.pendingLimitNames (rowLimits.map Prod.fst)
      if p.typeOfInsurance = "Other".data then
        let inferred := infer_type_from_limits pending
        if inferred ≠ "Other".data then
          let oldKey := "Other".data ++ '|' :: p.policyNumber
          let newKey := inferred ++ '|' :: p.policyNumber
          { s with
            policies := s.policies.set i
              { p with limits := some merged, typeOfInsurance := inferred }
            seen := setAdd (setDiscard s.seen oldKey) newKey
            pendingLimitNames := pending }
        else
          { s with
            policies := s.policies.set i { p with limits := some merged }
            pendingLimitNames := pending }
      else
        { s with
          policies := s.policies.set i { p with limits := some merged }
          pendingLimitNames := pending }

/-- One sub-line (`idx`) of a policy-bearing row: parse dates, consume a type
from the queue, validate the insurer letter, build per-entry limits, apply
the dedup key, and append the record. -/
def emitEntry (pnLines effLines expLines ltrLines limitsNames limitsVals : List Str)
    (s : ScanState) (idx : Nat) : ScanState :=
  let policyNumber := pyCleanStr (pnLines.getD idx [])
  let effStr := pyCleanStr (effLines.getD idx [])
  let expStr := pyCleanStr (expLines.getD idx [])
  let letterRaw :=
    if idx < ltrLines.length then pyCleanStr (ltrLines.getD idx [])
    else s.currentLetter
  if policyNumber = [] then s
  else
    match pyParseDate effStr, pyParseDate expStr with
    | some effDate, some expDate =>
      let consumed :=
        match s.typeQueue with
        | t :: rest => (t, rest, t)
        | [] => (s.lastConsumedType, [], s.lastConsumedType)
      let insType := consumed.1
      let s := { s with typeQueue := consumed.2.1, lastConsumedType := consumed.2.2 }
      let typeDisplay := if insType ≠ [] then normalize_type insType else "Other".data
      let letter :=
        if letterRaw = [] || !matchSingleLetter letterRaw then
          if matchSingleLetter s.currentLetter then s.currentLetter else []
        else letterRaw
      let limName := pyCleanStr (limitsNames.getD idx [])
      let limVal := pyCleanStr (limitsVals.getD idx [])
      let entryLimits :=
        if limName ≠ [] && limVal ≠ [] && limVal ≠ ['$'] then
          let v := limitValueClean limVal
          if v ≠ [] then [(limName, '$' :: v)] else []
        else []
      let key := typeDisplay ++ '|' :: policyNumber
      if s.seen.contains key then s
      else
        { s with
          seen := setAdd s.seen key
          policies := s.policies ++
            [⟨typeDisplay, policyNumber, effDate, expDate,
              (if entryLimits ≠ [] then some entryLimits else none),
              (if letter ≠ [] then some letter else none)⟩]
          lastPolicyIdx := some s.policies.length
          pendingLimitNames := entryLimits.map Prod.fst }
    | _, _ => s

/-- Truthiness of `row[-1]` (`None` and the empty string are falsy). -/
def lastCellTruthy (row : Row) : Bool :=
  match row.getLast? with
  | some (some s) => s ≠ []
  | _ => false

/-- A policy-bearing row: split the relevant cells into sub-lines and emit
one entry per policy-number sub-line. -/
def emitRow (cols : Cols) (s : ScanState) (row : Row) : ScanState :=
  let pnLines := split_cell row cols.pn
  let effLines := split_cell row cols.eff
  let expLines := split_cell row cols.exp
  let ltrLines := split_cell row cols.ltr
  let limitsNames := if cols.limits < row.length then split_cell row cols.limits else [[]]
  let limitsVals := if lastCellTruthy row then split_cell row (row.length - 1) else [[]]
  let n := max pnLines.length 1
  (List.range n).foldl
    (emitEntry pnLines effLines expLines ltrLines limitsNames limitsVals) s

/-- One data row of the stateful scan in `_parse_policy_table`. -/
def scanRow (cols : Cols) (s : ScanState) (row : Row) : ScanState :=
  if row = [] then s
  else
    let s2 := stepLetter cols (stepType cols s row) row
    let pnRaw := cellStr row cols.pn
    let effRaw := cellStr row cols.eff
    let expRaw := cellStr row cols.exp
    let rowLimits := collect_limits_range row cols.limits
    if pnRaw = [] && rowLimits ≠ [] && s2.lastPolicyIdx.isSome then
      contStep s2 rowLimits
    else if pnRaw = [] || effRaw = [] || expRaw = [] then
      { s2 with pendingLimitNames :=
          if rowLimits ≠ [] then
            setAddAll s2.pendingLimitNames (rowLimits.map Prod.fst)
          else s2.pendingLimitNames }
    else emitRow cols s2 row

/-- Locate the header row: the first row on which `_find_column_indices`
succeeds; returns the column map and the remaining (data) rows. -/
def findHeader : Table → Option (Cols × List Row)
  | [] => none
  | r :: rs =>
    match find_column_indices r with
    | some cols => some (cols, rs)
    | none => findHeader rs

/-- `_parse_policy_table`. -/
def parse_policy_table (table : Table) : List Policy :=
  if table.length < 3 then []
  else
    match findHeader table with
    | none => []
    | some (cols, rest) => (rest.foldl (scanRow cols) initScan).policies

/-! ## `_parse_header_table` — producer, insured, insurers -/

/-- Producer block of the header result. -/
structure Producer where
  name : Str
  address : Option Str
  phone : Option Str
  fax : Option Str
  email : Option Str
deriving Repr, DecidableEq

/-- Insured block of the header result. -/
structure Insured where
  name : Str
  address : Option Str
deriving Repr, DecidableEq

/-- One insurer roster entry. -/
structure Insurer where
  letter : Str
  name : Str
  naicNumber : Option Str
deriving Repr, DecidableEq

/-- The header interpreter's result dict. -/
structure HeaderResult where
  producer : Producer
  insured : Insured
  insurers : List Insurer
  certificateDate : Option Str
deriving Repr, DecidableEq

/-- Accumulator of the header cell scan: the result under construction plus
the recorded standalone `PRODUCER` / `INSURED` label row indices. -/
structure HeaderAcc where
  producer : Producer
  insured : Insured
  insurers : List Insurer
  certificateDate : Option Str
  producerRowIdx : Option Nat
  insuredRowIdx : Option Nat
deriving Repr, DecidableEq

/-- The initial header accumulator. -/
def initHeader : HeaderAcc :=
  ⟨⟨[], none, none, none, none⟩, ⟨[], none⟩, [], none, none, none⟩

/-- One attempt of `_DATE_RE` (`\d{1,2}/\d{1,2}/\d{4}`) anchored at the start
of `tl`; returns the matched substring. -/
def tryDateAt (tl : Str) : Option Str :=
  match grab12Slash tl with
  | none => none
  | some (m, rest1) =>
    match grab12Slash rest1 with
    | none => none
    | some (d, rest2) =>
      match rest2 with
      | y1 :: y2 :: y3 :: y4 :: _ =>
        if isDigit y1 && isDigit y2 && isDigit y3 && isDigit y4 then
          some (render1or2 m ++ '/' :: render1or2 d ++ '/' :: [y1, y2, y3, y4])
        else none
      | _ => none

/-- The first (leftmost) `_DATE_RE` match, as `findall(...)[0]` yields. -/
def dateReFindFirst : Str → Option Str
  | [] => none
  | c :: rest =>
    match tryDateAt (c :: rest) with
    | some m => some m
    | none => dateReFindFirst rest

/-- Character class `[\d\-\(\)]` of the phone/fax patterns. -/
def phoneClass (c : Char) : Bool := isDigit c || c = '-' || c = '(' || c = ')'

/-- `re.search(r"([\d\-\(\)]{7,})", text)`: the first maximal run of phone
characters with length at least 7 (`acc` is the current run, reversed). -/
def findRun7Go (acc : Str) : Str → Option Str
  | [] => if 7 ≤ acc.length then some acc.reverse else none
  | c :: rest =>
    if phoneClass c then findRun7Go (c :: acc) rest
    else if 7 ≤ acc.length then some acc.reverse
    else findRun7Go [] rest

/-- See `findRun7Go`. -/
def findRun7 (s : Str) : Option Str := findRun7Go [] s

/-- One attempt of `re.search(r"No\)?[:\s]*([\d\-\(\)]{7,})", text)` anchored
at `tl`; the optional `)` is tried consumed first (greedy), then skipped. -/
def tryFaxAt (tl : Str) : Option Str :=
  match tl with
  | 'N' :: 'o' :: rest =>
    let attempt (r : Str) : Option Str :=
      let r2 := r.dropWhile fun c => c = ':' || pyIsSpace c
      let run := r2.takeWhile phoneClass
      if 7 ≤ run.length then some run else none
    (match rest with
     | ')' :: rest2 =>
       match attempt rest2 with
       | some g => some g
       | none => attempt rest
     | _ => attempt rest)
  | _ => none

/-- Leftmost-match search for the fax pattern. -/
def faxSearch : Str → Option Str
  | [] => none
  | c :: rest =>
    match tryFaxAt (c :: rest) with
    | some g => some g
    | none => faxSearch rest

/-- Character class `[\w.\-+]` (e-mail local part). -/
def localClass (c : Char) : Bool := isWordChar c || c = '.' || c = '-' || c = '+'

/-- Character class `[\w.\-]` (e-mail domain part). -/
def domClass (c : Char) : Bool := isWordChar c || c = '.' || c = '-'

/-- Backtracking step of `[\w.\-]+\.\w+`: split the maximal domain run at the
last dot followed by a word character; the second component is the greedy
`\w+` run after that dot. -/
def lastDotSplit : Str → Option (Str × Str)
  | [] => none
  | c :: rest =>
    match lastDotSplit rest with
    | some (b, w) => some (c :: b, w)
    | none =>
      if c = '.' then
        match rest with
        | d :: _ => if isWordChar d then some ([], rest.takeWhile isWordChar) else none
        | [] => none
      else none

/-- One attempt of `re.search(r"([\w.\-+]+@[\w.\-]+\.\w+)", text)` anchored
at `tl`. -/
def tryEmailAt (tl : Str) : Option Str :=
  let loc := tl.takeWhile localClass
  if loc = [] then none
  else
    match tl.drop loc.length with
    | '@' :: rest =>
      let dom := rest.takeWhile domClass
      match lastDotSplit dom with
      | some (before, wordRun) => some (loc ++ '@' :: before ++ '.' :: wordRun)
      | none => none
    | _ => none

/-- Leftmost-match search for the e-mail pattern. -/
def emailSearch : Str → Option Str
  | [] => none
  | c :: rest =>
    match tryEmailAt (c :: rest) with
    | some g => some g
    | none => emailSearch rest

/-- `re.match(r"^\d+$", s)`. -/
def reAllDigits (s : Str) : Bool :=
  withTrailingNl (fun t => t ≠ [] && t.all isDigit) s

/-- `re.match(r"^\d{4,6}$", s)`. -/
def reMatchDigits46 (s : Str) : Bool :=
  withTrailingNl
    (fun t => 4 ≤ t.length && t.length ≤ 6 && t.all isDigit) s

/-- Letters `A–F` case-insensitively (`[A-F]` under `re.IGNORECASE`). -/
def isAFci (c : Char) : Bool := isAF c || ('a' ≤ c && c ≤ 'f')

/-- One attempt of `INSURER\s+([A-F])\s*:\s*(.*?)(?=\n|$)` (IGNORECASE)
anchored at `tl`: returns the upcased letter, the lazily matched name portion
(the rest of the line after the colon and whitespace), and the remainder of
the text after the match. -/
def tryInsurerMatchAt (tl : Str) : Option (Char × Str × Str) :=
  if pyUpper (tl.take 7) = ("INSURER".data) && 7 ≤ tl.length then
    let rest := tl.drop 7
    let ws := rest.takeWhile pyIsSpace
    if ws = [] then none
    else
      match rest.drop ws.length with
      | c :: rest2 =>
        if isAFci c then
          match rest2.dropWhile pyIsSpace with
          | ':' :: rest4 =>
            let rest5 := rest4.dropWhile pyIsSpace
            let g2 := rest5.takeWhile (fun ch => ch ≠ '\n')
            some (toUpperChar c, g2, rest5.drop g2.length)
          | _ => none
        else none
      | [] => none
  else none

/-- Fuelled `re.finditer` scan: non-overlapping matches, left to right; each
element carries the match's start index and the captured letter / name
portion.  Fuel `text.length + 1` suffices since the position strictly
increases. -/
def insurerFinditerGo (text : Str) : Nat → Nat → List (Nat × Char × Str)
  | _, 0 => []
  | idx, fuel + 1 =>
    let rest := text.drop idx
    if rest = [] then []
    else
      match tryInsurerMatchAt rest with
      | some (letter, g2, remaining) =>
        (idx, letter, g2) :: insurerFinditerGo text (text.length - remaining.length) fuel
      | none => insurerFinditerGo text (idx + 1) fuel

/-- All matches of the insurer pattern in one cell. -/
def insurerFinditer (text : Str) : List (Nat × Char × Str) :=
  insurerFinditerGo text 0 (text.length + 1)

/-- First truthy cell of a row whose stripped text has a `_DATE_RE` match;
returns that first match. -/
def findCellDate : Row → Option Str
  | [] => none
  | c :: rest =>
    match c with
    | some t =>
      if t ≠ [] then
        match dateReFindFirst (pyStrip t) with
        | some d => some d
        | none => findCellDate rest
      else findCellDate rest
    | none => findCellDate rest

/-- Truthiness of the certificate-date slot. -/
def truthyOptStr (o : Option Str) : Bool :=
  match o with
  | some s => s ≠ []
  | none => false

/-- The look-below scan for a certificate date: each row may overwrite the
slot (possibly with a failed parse, i.e. `none`); the scan stops after the
first row that leaves the slot truthy. -/
def certRowScan (cert0 : Option Str) : List Row → Option Str
  | [] => cert0
  | r :: rest =>
    let cert1 :=
      match findCellDate r with
      | some raw => pyParseDate raw
      | none => cert0
    if truthyOptStr cert1 then cert1 else certRowScan cert1 rest

/-- The slice `table[ri+1 : min(ri+3, len(table))]`. -/
def rowsBelow2 (table : Table) (ri : Nat) : List Row :=
  (table.drop (ri + 1)).take (min (ri + 3) table.length - (ri + 1))

/-- The certificate-date step: a cell containing `DATE (MM/DD/YYYY)` carries
the date itself or triggers a two-row look-below search. -/
def stepCertDate (table : Table) (ri : Nat) (acc : HeaderAcc) (text : Str) : HeaderAcc :=
  if strContains text ("DATE (MM/DD/YYYY)".data) then
    match dateReFindFirst text with
    | some d => { acc with certificateDate := pyParseDate d }
    | none =>
      { acc with certificateDate :=
          (certRowScan acc.certificateDate (rowsBelow2 table ri)) }
  else acc

/-- The compact `PRODUCER\n...` block: first retained line is the name, the
rest join into the address. -/
def stepProducerCompact (acc : HeaderAcc) (text : Str) : HeaderAcc :=
  if (("PRODUCER\n".data)).isPrefixOf text then
    let lines := ((splitOnChar '\n' text).map pyStrip).filter
      (fun l => l ≠ [] && l ≠ ("PRODUCER".data))
    match lines with
    | [] => acc
    | l0 :: rest =>
      { acc with producer :=
          { acc.producer with
            name := l0
            address := if rest ≠ [] then some (joinWith (", ".data) rest)
                       else acc.producer.address } }
  else acc

/-- The compact `INSURED\n...` block. -/
def stepInsuredCompact (acc : HeaderAcc) (text : Str) : HeaderAcc :=
  if (("INSURED\n".data)).isPrefixOf text then
    let lines := ((splitOnChar '\n' text).map pyStrip).filter
      (fun l => l ≠ [] && l ≠ ("INSURED".data))
    match lines with
    | [] => acc
    | l0 :: rest =>
      { acc with insured :=
          { name := l0
            address := if rest ≠ [] then some (joinWith (", ".data) rest)
                       else acc.insured.address } }
  else acc

/-- The phone step (`"PHONE" in upper and ("Ext)" in text or "(A/C" in text)`). -/
def stepPhone (acc : HeaderAcc) (text : Str) : HeaderAcc :=
  if strContains (pyUpper text) ("PHONE".data) &&
      (strContains text ("Ext)".data) || strContains text ("(A/C".data)) then
    match findRun7 text with
    | some run => { acc with producer := { acc.producer with phone := some (pyStrip run) } }
    | none => acc
  else acc

/-- The fax step (`"FAX" in upper and ("No)" in text or "(A/C" in text)`). -/
def stepFax (acc : HeaderAcc) (text : Str) : HeaderAcc :=
  if strContains (pyUpper text) ("FAX".data) &&
      (strContains text ("No)".data) || strContains text ("(A/C".data)) then
    match faxSearch text with
    | some run => { acc with producer := { acc.producer with fax := some (pyStrip run) } }
    | none => acc
  else acc

/-- The e-mail step (`"E-MAIL" in upper or "@" in text`). -/
def stepEmail (acc : HeaderAcc) (text : Str) : HeaderAcc :=
  if strContains (pyUpper text) ("E-MAIL".data) || strContains text ("@".data) then
    match emailSearch text with
    | some g => { acc with producer := { acc.producer with email := some g } }
    | none => acc
  else acc

/-- Name fallback 1: the last retained line of the text preceding the match
in the same cell. -/
def insurerPreName (text : Str) (start : Nat) : Str :=
  let pre := pyStrip (text.take start)
  let lines := ((splitOnChar '\n' pre).map pyStrip).filter fun l =>
    l ≠ [] && !((("INSURER".data)).isPrefixOf l) &&
      !((("NAIC".data)).isPrefixOf (pyUpper l)) &&
      !((("INSURER(S)".data)).isPrefixOf (pyUpper l))
  (lines.getLast?).getD []

/-- Name fallback 2: the first later cell in the same row that is longer than
three characters and is neither a bare number nor an `INSURER`/`NAIC`
label. -/
def insurerNeighborName : List Cell → Str
  | [] => []
  | oc :: rest =>
    match oc with
    | some t =>
      if t ≠ [] && 3 < (pyStrip t).length then
        let cand := pyStrip t
        if !reAllDigits cand && !strContains (pyUpper cand) ("INSURER".data) &&
            !strContains (pyUpper cand) ("NAIC".data) then cand
        else insurerNeighborName rest
      else insurerNeighborName rest
    | none => insurerNeighborName rest

/-- The NAIC number: the last truthy cell of the row whose stripped text is a
four-to-six digit number. -/
def insurerNaic (row : Row) : Option Str :=
  row.foldl
    (fun cur oc =>
      match oc with
      | some t => if t ≠ [] && reMatchDigits46 (pyStrip t) then some (pyStrip t) else cur
      | none => cur)
    none

/-- Process one insurer-pattern match: resolve the name through the two
fallbacks, attach the NAIC number, and append when the letter is new. -/
def insurerMatchStep (text : Str) (row : Row) (ci : Nat) (acc : HeaderAcc)
    (m : Nat × Char × Str) : HeaderAcc :=
  let letter : Str := [m.2.1]
  let name := pyCleanStr m.2.2
  let name := if name = [] then insurerPreName text m.1 else name
  let name := if name = [] then insurerNeighborName (row.drop (ci + 1)) else name
  if name ≠ [] && 2 < name.length then
    if acc.insurers.any (fun ins => ins.letter = letter) then acc
    else { acc with insurers := acc.insurers ++ [⟨letter, name, insurerNaic row⟩] }
  else acc

/-- The insurer step: fold over all matches of the insurer pattern. -/
def stepInsurers (acc : HeaderAcc) (text : Str) (row : Row) (ci : Nat) : HeaderAcc :=
  (insurerFinditer text).foldl (insurerMatchStep text row ci) acc

/-- One header cell, running the source's independent `if` blocks in order. -/
def processHeaderCell (table : Table) (ri : Nat) (row : Row) (ci : Nat)
    (acc : HeaderAcc) (c : Cell) : HeaderAcc :=
  match c with
  | none => acc
  | some s0 =>
    if s0 = [] then acc
    else
      let text := pyStrip s0
      let acc := stepCertDate table ri acc text
      let acc := stepProducerCompact acc text
      let acc := if text = ("PRODUCER".data) then { acc with producerRowIdx := some ri } else acc
      let acc := stepInsuredCompact acc text
      let acc := if text = ("INSURED".data) then { acc with insuredRowIdx := some ri } else acc
      let acc := stepPhone acc text
      let acc := stepFax acc text
      let acc := stepEmail acc text
      stepInsurers acc text row ci

/-- Cell loop of the header scan. -/
def headerCellsGo (table : Table) (ri : Nat) (row : Row) :
    Nat → HeaderAcc → List Cell → HeaderAcc
  | _, acc, [] => acc
  | ci, acc, c :: rest =>
    headerCellsGo table ri row (ci + 1) (processHeaderCell table ri row ci acc c) rest

/-- Row loop of the header scan. -/
def headerRowsGo (table : Table) : Nat → HeaderAcc → List Row → HeaderAcc
  | _, acc, [] => acc
  | ri, acc, r :: rest =>
    headerRowsGo table (ri + 1) (headerCellsGo table ri r 0 acc r) rest

/-- The post-loop row walk below a standalone label.  `row[0]` on an empty
row is Python's `IndexError`, modelled as `Except.error ()`. -/
def headerWalk (stopFn : Str → Bool) : List Row → List Str → Except Unit (List Str)
  | [], acc => .ok acc
  | r :: rest, acc =>
    match r with
    | [] => .error ()
    | c0 :: _ =>
      let cell0 := cellClean c0
      if cell0 = [] then headerWalk stopFn rest acc
      else if stopFn cell0 then .ok acc
      else headerWalk stopFn rest (acc ++ [cell0])

/-- Stop condition of the producer walk. -/
def producerWalkStop (cell0 : Str) : Bool :=
  pyUpper cell0 = ("INSURED".data) || (("INSURER".data)).isPrefixOf (pyUpper cell0)

/-- Stop condition of the insured walk. -/
def insuredWalkStop (cell0 : Str) : Bool :=
  (("COVERAGES".data)).isPrefixOf (pyUpper cell0) ||
    (("THIS IS TO CERTIFY".data)).isPrefixOf (pyUpper cell0)

/-- The slice `table[idx+1 : min(idx+6, len(table))]`. -/
def rowsBelow5 (table : Table) (idx : Nat) : List Row :=
  (table.drop (idx + 1)).take (min (idx + 6) table.length - (idx + 1))

/-- Apply the standalone-`PRODUCER` walk when the label was seen and no
producer name was found in the cell scan. -/
def applyProducerWalk (table : Table) (acc : HeaderAcc) : Except Unit HeaderAcc :=
  match acc.producerRowIdx with
  | none => .ok acc
  | some idx =>
    if acc.producer.name = [] then
      match headerWalk producerWalkStop (rowsBelow5 table idx) [] with
      | .error e => .error e
      | .ok parts =>
        match parts with
        | [] => .ok acc
        | p0 :: rest =>
          .ok { acc with producer :=
              { acc.producer with
                name := p0
                address := if rest ≠ [] then some (joinWith (", ".data) rest)
                           else acc.producer.address } }
    else .ok acc

/-- Apply the standalone-`INSURED` walk symmetrically. -/
def applyInsuredWalk (table : Table) (acc : HeaderAcc) : Except Unit HeaderAcc :=
  match acc.insuredRowIdx with
  | none => .ok acc
  | some idx =>
    if acc.insured.name = [] then
      match headerWalk insuredWalkStop (rowsBelow5 table idx) [] with
      | .error e => .error e
      | .ok parts =>
        match parts with
        | [] => .ok acc
        | p0 :: rest =>
          .ok { acc with insured :=
              { name := p0
                address := if rest ≠ [] then some (joinWith (", ".data) rest)
                           else acc.insured.address } }
    else .ok acc

/-- `_parse_header_table`. -/
def parse_header_table (table : Table) : Except Unit HeaderResult :=
  let acc := headerRowsGo table 0 initHeader table
  match applyProducerWalk table acc with
  | .error e => .error e
  | .ok acc2 =>
    match applyInsuredWalk table acc2 with
    | .error e => .error e
    | .ok acc3 => .ok ⟨acc3.producer, acc3.insured, acc3.insurers, acc3.certificateDate⟩

/-! ## `_parse_footer_table` — certificate holder -/

/-- Certificate-holder record. -/
structure CertHolder where
  name : Str
  address : Option Str
deriving Repr, DecidableEq

/-- Boilerplate markers skipped by the footer interpreter. -/
def FOOTER_SKIP : List Str :=
  [ "SHOULD".data, "AUTHORIZED".data, "CANCELLATION".data
  , "CERTIFICATE HOLDER".data, "ACORD 25".data, "©".data ]

/-- One footer cell: `none` when the cell does not qualify. -/
def footerCell (c : Cell) : Option CertHolder :=
  match c with
  | none => none
  | some s =>
    if s = [] then none
    else
      let text := pyStrip s
      let upper := pyUpper text
      if FOOTER_SKIP.any (fun kw => strContains upper kw) then none
      else
        let lines := ((splitOnChar '\n' text).map pyStrip).filter (fun l => l ≠ [])
        match lines with
        | [] => none
        | l0 :: rest =>
          if l0.length < 4 then none
          else
            match l0 with
            | c0 :: _ =>
              if ('A' ≤ c0 && c0 ≤ 'Z') || isDigit c0 then
                some ⟨l0, if rest ≠ [] then some (joinWith (", ".data) rest) else none⟩
              else none
            | [] => none

/-- Cell loop of the footer scan (first qualifying cell wins). -/
def footerCells : List Cell → Option CertHolder
  | [] => none
  | c :: rest =>
    match footerCell c with
    | some h => some h
    | none => footerCells rest

/-- `_parse_footer_table`. -/
def parse_footer_table : Table → Option CertHolder
  | [] => none
  | r :: rest =>
    match footerCells r with
    | some h => some h
    | none => parse_footer_table rest

/-! ## `parse_acord25_pdf` — layout classification and aggregation -/

/-- `_has_policy_header`: some cell contains `POLICY NUMBER` (uppercased). -/
def has_policy_header (table : Table) : Bool :=
  table.any fun row => row.any fun c =>
    match c with
    | some s => s ≠ [] && strContains (pyUpper s) ("POLICY NUMBER".data)
    | none => false

/-- The aggregate result assembled at the end of `parse_acord25_pdf`
(camelCase keys of the returned dict). -/
structure ParsedResult where
  producer : Option Producer
  insured : Insured
  certificateHolder : Option CertHolder
  insurers : Option (List Insurer)
  certificateDate : Option Str
  policies : List Policy
deriving Repr, DecidableEq

/-- The final assembly: `header_data.get(...)` defaults for a possibly-empty
header dict, the truthiness guards on producer name and insurer list, and the
`"Unknown"` insured default used only when no header dict was adopted. -/
def assemble (hd : Option HeaderResult) (pols : List Policy)
    (ch : Option CertHolder) : ParsedResult :=
  match hd with
  | none =>
    ⟨none, ⟨"Unknown".data, none⟩, ch, none, none, pols⟩
  | some h =>
    ⟨(if h.producer.name ≠ [] then some h.producer else none),
     h.insured, ch,
     (if h.insurers ≠ [] then some h.insurers else none),
     h.certificateDate, pols⟩

/-- Mega-table scan state: the adopted header dict (`none` models the empty
dict `{}`), the policies of the last policy-grid table, and the first adopted
certificate holder. -/
structure MegaState where
  headerData : Option HeaderResult
  policies : List Policy
  certificateHolder : Option CertHolder
deriving Repr, DecidableEq

/-- Truthiness of `header_data.get("producer", {}).get("name")`. -/
def megaProducerName (hd : Option HeaderResult) : Str :=
  match hd with
  | none => []
  | some h => h.producer.name

/-- Merge the insurer rosters by unique letter (`seen_letters` is fixed
before the append loop). -/
def mergeInsurers (existing new : List Insurer) : List Insurer :=
  existing ++ new.filter fun ins =>
    !(existing.any fun e => e.letter = ins.letter)

/-- One table of the mega-table loop. -/
def megaTableStep (st : MegaState) (t : Table) : Except Unit MegaState :=
  if has_policy_header t then
    match parse_header_table t with
    | .error e => .error e
    | .ok hd =>
      let headerData :=
        if megaProducerName st.headerData = [] then some hd
        else if hd.producer.name ≠ [] then
          match st.headerData with
          | some h0 => some { h0 with insurers := mergeInsurers h0.insurers hd.insurers }
          | none => st.headerData
        else st.headerData
      .ok { st with headerData := headerData, policies := parse_policy_table t }
  else
    let afterHeader : Except Unit MegaState :=
      if megaProducerName st.headerData = [] then
        match parse_header_table t with
        | .error e => .error e
        | .ok hd =>
          if hd.producer.name ≠ [] then .ok { st with headerData := some hd }
          else .ok st
      else .ok st
    match afterHeader with
    | .error e => .error e
    | .ok st2 =>
      match st2.certificateHolder with
      | some _ => .ok st2
      | none => .ok { st2 with certificateHolder := parse_footer_table t }

/-- The mega-table loop over all tables. -/
def megaScan (st : MegaState) : List Table → Except Unit MegaState
  | [] => .ok st
  | t :: rest =>
    match megaTableStep st t with
    | .error e => .error e
    | .ok st2 => megaScan st2 rest

/-- The mega-table / other-layout path. -/
def megaPath (tables : List Table) : Except Unit ParsedResult :=
  match megaScan ⟨none, [], none⟩ tables with
  | .error e => .error e
  | .ok st => .ok (assemble st.headerData st.policies st.certificateHolder)

/-- The table-interpretation part of `parse_acord25_pdf` (everything after
pdfplumber extraction): three-table dispatch or mega-table scan, then the
final assembly. -/
def parseTables (tables : List Table) : Except Unit ParsedResult :=
  match tables with
  | t0 :: t1 :: t2 :: _ =>
    if !has_policy_header t0 then
      match parse_header_table t0 with
      | .error e => .error e
      | .ok h =>
        .ok (assemble (some h) (parse_policy_table t1) (parse_footer_table t2))
    else megaPath tables
  | _ => megaPath tables

/-! ## Concrete tables used by witnesses and counterexamples -/

/-- A five-column ACORD policy-grid header row. -/
def gridHeaderRow : Row :=
  [some ("INSR LTR".data), some ("TYPE OF INSURANCE".data),
   some ("POLICY NUMBER".data), some ("POLICY EFF".data), some ("POLICY EXP".data)]

/-- A stacked policy-bearing row whose type cell queues
`WORKERS COMPENSATION` and then `Other`, with the same policy number twice. -/
def dupTypeRow : Row :=
  [none, some ("WORKERS COMPENSATION\nOther".data), some ("P1\nP1".data),
   some ("01/01/2024\n01/01/2024".data), some ("01/01/2025\n01/01/2025".data)]

/-- A continuation row: no policy number, one `PER STATUTE` limit. -/
def perStatuteRow : Row :=
  [none, none, none, none, none, some ("PER STATUTE".data), some ("$500,000".data)]

/-- The C1 counterexample table. -/
def C1table : Table := [gridHeaderRow, dupTypeRow, perStatuteRow]

/-- A complete single-policy data row (Commercial General Liability). -/
def cglRow : Row :=
  [some ("A".data), some ("COMMERCIAL GENERAL LIABILITY".data),
   some ("GL-12345".data), some ("01/01/2024".data), some ("01/01/2025".data)]

/-- The spec's dedup test: the same policy row twice. -/
def dedupTable : Table := [gridHeaderRow, cglRow, cglRow]

/-! ## C10 — minimum-size precondition of the policy grid -/

/-- C10: for every input table with fewer than 3 rows, the Policy Grid
Interpreter returns an empty policy list without examining any row, even when
the table contains a valid `POLICY NUMBER` header row followed by a complete
data row. -/
theorem C10_short_table_empty (table : Table) (h : table.length < 3) :
    parse_policy_table table = [] := by
  unfold parse_policy_table
  simp [h]

/-- Witness for C10: a two-row table with a valid header row and a complete
policy row still yields no policies. -/
theorem C10_short_table_empty_witness :
    ([gridHeaderRow, cglRow] : Table).length < 3 ∧
      (find_column_indices gridHeaderRow).isSome = true ∧
      parse_policy_table [gridHeaderRow, cglRow] = [] :=
  ⟨by decide, by decide, C10_short_table_empty [gridHeaderRow, cglRow] (by decide)⟩

/-! ## C5 — date normalization lemmas -/

/-- `dropWhile` is the identity when the predicate fails everywhere. -/
theorem dropWhile_of_all_false {p : Char → Bool} :
    ∀ s : Str, (∀ c ∈ s, p c = false) → s.dropWhile p = s := by
  intro s h
  cases s with
  | nil => rfl
  | cons a t => simp [List.dropWhile_cons, h a (by simp)]

/-- `pyStrip` is the identity on whitespace-free strings. -/
theorem pyStrip_of_no_ws (s : Str) (h : ∀ c ∈ s, pyIsSpace c = false) :
    pyStrip s = s := by
  unfold pyStrip
  rw [dropWhile_of_all_false s h,
      dropWhile_of_all_false s.reverse (fun c hc => h c (List.mem_reverse.mp hc)),
      List.reverse_reverse]

/-- `takeWhile` stops exactly at the first failing character after an
all-satisfying prefix. -/
theorem takeWhile_append_cons {p : Char → Bool} :
    ∀ (ds : Str) (c : Char) (r : Str), ds.all p = true → p c = false →
      (ds ++ c :: r).takeWhile p = ds := by
  intro ds
  induction ds with
  | nil => intro c r _ hc; simp [List.takeWhile_cons, hc]
  | cons a t ih =>
    intro c r h hc
    simp only [List.all_cons, Bool.and_eq_true] at h
    simp [List.takeWhile_cons, h.1, ih c r h.2 hc]

/-- `takeWhile` keeps an all-satisfying list whole. -/
theorem takeWhile_of_all {p : Char → Bool} :
    ∀ ds : Str, ds.all p = true → ds.takeWhile p = ds := by
  intro ds
  induction ds with
  | nil => intro _; rfl
  | cons a t ih =>
    intro h
    simp only [List.all_cons, Bool.and_eq_true] at h
    simp [List.takeWhile_cons, h.1, ih h.2]

/-- The facts about a digit character needed by the rendering lemmas. -/
theorem digitChar_facts {k : Nat} (h : k ≤ 9) :
    isDigit (digitChar k) = true ∧ digitVal (digitChar k) = k ∧
      pyIsSpace (digitChar k) = false := by
  interval_cases k <;> exact ⟨by decide, by decide, by decide⟩

/-- `render2` renders two digits with the right value. -/
theorem render2_facts {m : Nat} (h : m ≤ 99) :
    (render2 m).all isDigit = true ∧ segVal (render2 m) = m ∧
      (∀ c ∈ render2 m, pyIsSpace c = false) ∧ (render2 m).length = 2 := by
  have h1 : m / 10 ≤ 9 := by omega
  have h2 : m % 10 ≤ 9 := by omega
  obtain ⟨d1, v1, s1⟩ := digitChar_facts h1
  obtain ⟨d2, v2, s2⟩ := digitChar_facts h2
  refine ⟨by simp [render2, d1, d2], ?_, ?_, rfl⟩
  · simp [render2, segVal, v1, v2]
    omega
  · intro c hc
    simp [render2] at hc
    rcases hc with rfl | rfl
    · exact s1
    · exact s2

/-- `render1or2` renders one or two digits with the right value. -/
theorem render1or2_facts {m : Nat} (h : m ≤ 99) :
    (render1or2 m).all isDigit = true ∧ segVal (render1or2 m) = m ∧
      (∀ c ∈ render1or2 m, pyIsSpace c = false) ∧
      ((render1or2 m).length = 1 ∨ (render1or2 m).length = 2) := by
  by_cases h10 : m < 10
  · obtain ⟨d1, v1, s1⟩ := digitChar_facts (by omega : m ≤ 9)
    have e : render1or2 m = [digitChar m] := by simp [render1or2, h10]
    rw [e]
    refine ⟨by simp [d1], by simp [segVal, v1], ?_, Or.inl rfl⟩
    intro c hc
    simp at hc
    subst hc
    exact s1
  · obtain ⟨a, v, s, l⟩ := render2_facts h
    have e : render1or2 m = render2 m := by simp [render1or2, h10]
    rw [e]
    exact ⟨a, v, s, Or.inr l⟩

/-- `render4` renders four digits with the right value. -/
theorem render4_facts {y : Nat} (h : y ≤ 9999) :
    (render4 y).all isDigit = true ∧ segVal (render4 y) = y ∧
      (∀ c ∈ render4 y, pyIsSpace c = false) ∧ (render4 y).length = 4 := by
  have h1 : y / 1000 ≤ 9 := by omega
  have h2 : y / 100 % 10 ≤ 9 := by omega
  have h3 : y / 10 % 10 ≤ 9 := by omega
  have h4 : y % 10 ≤ 9 := by omega
  obtain ⟨a1, v1, s1⟩ := digitChar_facts h1
  obtain ⟨a2, v2, s2⟩ := digitChar_facts h2
  obtain ⟨a3, v3, s3⟩ := digitChar_facts h3
  obtain ⟨a4, v4, s4⟩ := digitChar_facts h4
  refine ⟨by simp [render4, a1, a2, a3, a4], ?_, ?_, rfl⟩
  · simp [render4, segVal, v1, v2, v3, v4]
    omega
  · intro c hc
    simp [render4] at hc
    rcases hc with rfl | rfl | rfl | rfl
    · exact s1
    · exact s2
    · exact s3
    · exact s4

/-- `seg12Ok` reduces to a bounds check once the segment's shape is known. -/
theorem seg12Ok_of (hi : Nat) (ds : Str) (v : Nat) (ha : ds.all isDigit = true)
    (hv : segVal ds = v) (hl : ds.length = 1 ∨ ds.length = 2) :
    seg12Ok hi ds = (decide (1 ≤ v) && decide (v ≤ hi)) := by
  unfold seg12Ok
  rw [ha, hv]
  rcases hl with h | h <;> simp [h]

/-- `strpMDY` on a rendered `<month><sep><day><sep><4-digit year>` string is
the validated date exactly when month and day pass the strptime patterns. -/
theorem strpMDY_render (sep : Char) (hs : isDigit sep = false)
    (mStr dStr : Str) (m d y : Nat)
    (hma : mStr.all isDigit = true) (hmv : segVal mStr = m)
    (hml : mStr.length = 1 ∨ mStr.length = 2)
    (hda : dStr.all isDigit = true) (hdv : segVal dStr = d)
    (hdl : dStr.length = 1 ∨ dStr.length = 2)
    (hy : y ≤ 9999) :
    strpMDY sep (mStr ++ sep :: (dStr ++ sep :: render4 y))
      = if (1 ≤ m ∧ m ≤ 12) ∧ (1 ≤ d ∧ d ≤ 31) then mkDate y m d else none := by
  obtain ⟨ya, yv, _, yl⟩ := render4_facts hy
  have t1 : (mStr ++ sep :: (dStr ++ sep :: render4 y)).takeWhile isDigit = mStr :=
    takeWhile_append_cons mStr sep _ hma hs
  have t2 : (mStr ++ sep :: (dStr ++ sep :: render4 y)).drop mStr.length
      = sep :: (dStr ++ sep :: render4 y) := List.drop_left mStr _
  have t3 : (dStr ++ sep :: render4 y).takeWhile isDigit = dStr :=
    takeWhile_append_cons dStr sep _ hda hs
  have t4 : (dStr ++ sep :: render4 y).drop dStr.length = sep :: render4 y :=
    List.drop_left dStr _
  have t5 : (render4 y).takeWhile isDigit = render4 y := takeWhile_of_all _ ya
  have t6 : (render4 y).drop (render4 y).length = ([] : Str) := List.drop_length _
  simp only [strpMDY, t1, t2, t3, t4, t5, t6,
    seg12Ok_of 12 mStr m hma hmv hml, seg12Ok_of 31 dStr d hda hdv hdl, yl, yv]
  by_cases hm : (1 ≤ m ∧ m ≤ 12)
  · by_cases hd31 : (1 ≤ d ∧ d ≤ 31)
    · simp [hm.1, hm.2, hd31.1, hd31.2, hm, hd31, hmv, hdv, yl]
    · have : ¬ (1 ≤ d) ∨ ¬ (d ≤ 31) := by omega
      rcases this with h | h <;> simp [hm.1, hm.2, h, hm, hd31]
  · have : ¬ (1 ≤ m) ∨ ¬ (m ≤ 12) := by omega
    rcases this with h | h <;> simp [h, hm]

/-- A digit is not a slash. -/
theorem digit_ne_slash {c : Char} (h : isDigit c = true) : c ≠ '/' := by
  intro he
  subst he
  simp [isDigit] at h

/-- A digit is not a dash. -/
theorem digit_ne_dash {c : Char} (h : isDigit c = true) : c ≠ '-' := by
  intro he
  subst he
  simp [isDigit] at h

/-- `strpMDY` fails when the character after the leading digit run is not the
separator. -/
theorem strpMDY_not_sep (sep c : Char) (pre r : Str) (hp : pre.all isDigit = true)
    (hc : isDigit c = false) (hne : c ≠ sep) : strpMDY sep (pre ++ c :: r) = none := by
  have t1 : (pre ++ c :: r).takeWhile isDigit = pre := takeWhile_append_cons pre c r hp hc
  have t2 : (pre ++ c :: r).drop pre.length = c :: r := List.drop_left pre _
  simp [strpMDY, t1, t2, hne]

/-- `strpMDY` fails when the leading digit run does not pass the month
pattern (e.g. a four-digit year in first position). -/
theorem strpMDY_bad_month (sep c : Char) (pre r : Str) (hp : pre.all isDigit = true)
    (hc : isDigit c = false) (hbad : seg12Ok 12 pre = false) :
    strpMDY sep (pre ++ c :: r) = none := by
  have t1 : (pre ++ c :: r).takeWhile isDigit = pre := takeWhile_append_cons pre c r hp hc
  have t2 : (pre ++ c :: r).drop pre.length = c :: r := List.drop_left pre _
  simp [strpMDY, t1, t2, hbad]

/-- `strpYMD` fails when the character after the leading digit run is not a
dash. -/
theorem strpYMD_not_dash (c : Char) (pre r : Str) (hp : pre.all isDigit = true)
    (hc : isDigit c = false) (hne : c ≠ '-') : strpYMD (pre ++ c :: r) = none := by
  have t1 : (pre ++ c :: r).takeWhile isDigit = pre := takeWhile_append_cons pre c r hp hc
  have t2 : (pre ++ c :: r).drop pre.length = c :: r := List.drop_left pre _
  simp only [strpYMD, t1, t2]
  split
  · next heq => exact absurd (List.cons.inj heq).1 hne
  · rfl

/-- `strpYMD` fails when the leading digit run is not exactly four digits. -/
theorem strpYMD_short_year (c : Char) (pre r : Str) (hp : pre.all isDigit = true)
    (hc : isDigit c = false) (hlen : pre.length ≠ 4) :
    strpYMD (pre ++ c :: r) = none := by
  have t1 : (pre ++ c :: r).takeWhile isDigit = pre := takeWhile_append_cons pre c r hp hc
  have t2 : (pre ++ c :: r).drop pre.length = c :: r := List.drop_left pre _
  simp only [strpYMD, t1, t2]
  split
  · simp [hlen]
  · rfl

/-- `strpYMD` on a rendered `YYYY-<month>-<day>` string. -/
theorem strpYMD_render (mStr dStr : Str) (m d y : Nat)
    (hma : mStr.all isDigit = true) (hmv : segVal mStr = m)
    (hml : mStr.length = 1 ∨ mStr.length = 2)
    (hda : dStr.all isDigit = true) (hdv : segVal dStr = d)
    (hdl : dStr.length = 1 ∨ dStr.length = 2)
    (hy : y ≤ 9999) :
    strpYMD (render4 y ++ '-' :: (mStr ++ '-' :: dStr))
      = if (1 ≤ m ∧ m ≤ 12) ∧ (1 ≤ d ∧ d ≤ 31) then mkDate y m d else none := by
  obtain ⟨ya, yv, _, yl⟩ := render4_facts hy
  have hdash : isDigit '-' = false := by decide
  have t1 : (render4 y ++ '-' :: (mStr ++ '-' :: dStr)).takeWhile isDigit = render4 y :=
    takeWhile_append_cons _ '-' _ ya hdash
  have t2 : (render4 y ++ '-' :: (mStr ++ '-' :: dStr)).drop (render4 y).length
      = '-' :: (mStr ++ '-' :: dStr) := List.drop_left _ _
  have t3 : (mStr ++ '-' :: dStr).takeWhile isDigit = mStr :=
    takeWhile_append_cons _ '-' _ hma hdash
  have t4 : (mStr ++ '-' :: dStr).drop mStr.length = '-' :: dStr := List.drop_left _ _
  have t5 : dStr.takeWhile isDigit = dStr := takeWhile_of_all _ hda
  have t6 : dStr.drop dStr.length = ([] : Str) := List.drop_length _
  rw [yl] at t2
  simp only [strpYMD, t1, t2, t3, t4, t5, t6, yl,
    seg12Ok_of 12 mStr m hma hmv hml, seg12Ok_of 31 dStr d hda hdv hdl, yv]
  by_cases hm : (1 ≤ m ∧ m ≤ 12)
  · by_cases hd31 : (1 ≤ d ∧ d ≤ 31)
    · simp [hm.1, hm.2, hd31.1, hd31.2, hm, hd31, hmv, hdv]
    · have : ¬ (1 ≤ d) ∨ ¬ (d ≤ 31) := by omega
      rcases this with h | h <;> simp [hm.1, hm.2, h, hm, hd31]
  · have : ¬ (1 ≤ m) ∨ ¬ (m ≤ 12) := by omega
    rcases this with h | h <;> simp [h, hm]

/-- `\d{1,2}/`: the one-digit success case. -/
theorem grab12_one_ok (a : Char) (r : Str) (ha : isDigit a = true) :
    grab12Slash (a :: '/' :: r) = some (digitVal a, r) := by
  have hsl : isDigit '/' = false := by decide
  simp [grab12Slash, ha, hsl]

/-- `\d{1,2}/`: the two-digit success case. -/
theorem grab12_two_ok (a b : Char) (r : Str) (ha : isDigit a = true)
    (hb : isDigit b = true) :
    grab12Slash (a :: b :: '/' :: r) = some (digitVal a * 10 + digitVal b, r) := by
  simp [grab12Slash, ha, hb]

/-- `\d{1,2}/` fails when one digit is followed by neither digit nor slash. -/
theorem grab12_one_fail (a c : Char) (r : Str) (ha : isDigit a = true)
    (hc : isDigit c = false) (hs : c ≠ '/') : grab12Slash (a :: c :: r) = none := by
  simp [grab12Slash, ha, hc, hs]

/-- `\d{1,2}/` fails when two digits are followed by a non-slash. -/
theorem grab12_two_fail (a b c : Char) (r : Str) (ha : isDigit a = true)
    (hb : isDigit b = true) (hs : c ≠ '/') : grab12Slash (a :: b :: c :: r) = none := by
  simp only [grab12Slash, ha, hb, if_pos, if_true]
  split
  · next heq => exact absurd (List.cons.inj heq).1 hs
  · rfl

/-- A `grab12Slash` success on a rendered month/day segment followed by a
slash: the parsed value is the segment's value. -/
theorem grab12_render (mStr : Str) (m : Nat) (r : Str)
    (hma : mStr.all isDigit = true) (hmv : segVal mStr = m)
    (hml : mStr.length = 1 ∨ mStr.length = 2) :
    grab12Slash (mStr ++ '/' :: r) = some (m, r) := by
  rcases hml with h1 | h2
  · match mStr, h1 with
    | [a], _ =>
      have ha : isDigit a = true := by simpa using hma
      rw [List.cons_append, List.nil_append, grab12_one_ok a r ha]
      simp [segVal] at hmv
      rw [hmv]
  · match mStr, h2 with
    | [a, b], _ =>
      have hab : isDigit a = true ∧ isDigit b = true := by simpa using hma
      rw [List.cons_append, List.cons_append, List.nil_append,
        grab12_two_ok a b r hab.1 hab.2]
      simp [segVal] at hmv
      rw [hmv]

/-- A digit is not whitespace. -/
theorem digit_not_ws {c : Char} (h : isDigit c = true) : pyIsSpace c = false := by
  cases hc : pyIsSpace c with
  | false => rfl
  | true =>
    simp [pyIsSpace] at hc
    rcases hc with ((((rfl | rfl) | rfl) | rfl) | rfl) | rfl <;> simp [isDigit] at h

/-- `fallbackSlashDate` on a rendered `<month>/<day>/<4-digit year>` string
is exactly the `datetime`-validated date. -/
theorem fallback_slash_render (mStr dStr : Str) (m d y : Nat)
    (hma : mStr.all isDigit = true) (hmv : segVal mStr = m)
    (hml : mStr.length = 1 ∨ mStr.length = 2)
    (hda : dStr.all isDigit = true) (hdv : segVal dStr = d)
    (hdl : dStr.length = 1 ∨ dStr.length = 2)
    (hy : y ≤ 9999) :
    fallbackSlashDate (mStr ++ '/' :: (dStr ++ '/' :: render4 y)) = mkDate y m d := by
  obtain ⟨ya, yv, _, _⟩ := render4_facts hy
  have h1 : y / 1000 ≤ 9 := by omega
  have h2 : y / 100 % 10 ≤ 9 := by omega
  have h3 : y / 10 % 10 ≤ 9 := by omega
  have h4 : y % 10 ≤ 9 := by omega
  simp only [fallbackSlashDate,
    grab12_render mStr m _ hma hmv hml, grab12_render dStr d _ hda hdv hdl, render4]
  simp only [render4] at yv
  simp [(digitChar_facts h1).1, (digitChar_facts h2).1, (digitChar_facts h3).1,
    (digitChar_facts h4).1, yv]

/-- `fallbackSlashDate` fails on a dash-separated rendering. -/
theorem fallback_dash_fail (mStr r : Str)
    (hma : mStr.all isDigit = true)
    (hml : mStr.length = 1 ∨ mStr.length = 2) :
    fallbackSlashDate (mStr ++ '-' :: r) = none := by
  have hdash : isDigit '-' = false := by decide
  have hds : ('-' : Char) ≠ '/' := by decide
  rcases hml with h1 | h2
  · match mStr, h1 with
    | [a], _ =>
      have ha : isDigit a = true := by simpa using hma
      rw [List.cons_append, List.nil_append]
      simp [fallbackSlashDate, grab12_one_fail a '-' r ha hdash hds]
  · match mStr, h2 with
    | [a, b], _ =>
      have hab : isDigit a = true ∧ isDigit b = true := by simpa using hma
      rw [List.cons_append, List.cons_append, List.nil_append]
      simp [fallbackSlashDate, grab12_two_fail a b '-' r hab.1 hab.2 hds]

/-- `fallbackSlashDate` fails on anything starting with a four-digit year. -/
theorem fallback_render4_fail (y : Nat) (r : Str) (hy : y ≤ 9999) :
    fallbackSlashDate (render4 y ++ r) = none := by
  have h1 : y / 1000 ≤ 9 := by omega
  have h2 : y / 100 % 10 ≤ 9 := by omega
  have h3 : y / 10 % 10 ≤ 9 := by omega
  have e : render4 y ++ r
      = digitChar (y / 1000) :: digitChar (y / 100 % 10)
        :: digitChar (y / 10 % 10) :: digitChar (y % 10) :: r := by
    simp [render4]
  rw [e]
  simp [fallbackSlashDate,
    grab12_two_fail _ _ _ _ (digitChar_facts h1).1 (digitChar_facts h2).1
      (digit_ne_slash (digitChar_facts h3).1)]

/-- Unfolding of `_parse_date` for a nonempty, whitespace-free subject. -/
theorem pyParseDate_eq (s : Str) (hne : s ≠ [])
    (hns : ∀ c ∈ s, pyIsSpace c = false) :
    pyParseDate s =
      (match strpMDY '/' s with
       | some r => some r
       | none =>
         match strpYMD s with
         | some r => some r
         | none =>
           match strpMDY '-' s with
           | some r => some r
           | none => fallbackSlashDate s) := by
  unfold pyParseDate
  rw [if_neg hne, pyStrip_of_no_ws s hns]

/-- All-digit lists are whitespace-free. -/
theorem all_digits_no_ws {s : Str} (h : s.all isDigit = true) :
    ∀ c ∈ s, pyIsSpace c = false :=
  fun c hc => digit_not_ws (List.all_eq_true.mp h c hc)

/-- Whitespace-freeness of a `<seg><sep><seg><sep><year>` rendering. -/
theorem no_ws_mdy (sep : Char) (hsep : pyIsSpace sep = false) (mStr dStr : Str)
    (y : Nat) (hma : mStr.all isDigit = true) (hda : dStr.all isDigit = true)
    (hy : y ≤ 9999) :
    ∀ c ∈ mStr ++ sep :: (dStr ++ sep :: render4 y), pyIsSpace c = false := by
  obtain ⟨ya, _, _, _⟩ := render4_facts hy
  intro c hc
  simp only [List.mem_append, List.mem_cons] at hc
  rcases hc with hm | rfl | hd | rfl | hy4
  · exact all_digits_no_ws hma c hm
  · exact hsep
  · exact all_digits_no_ws hda c hd
  · exact hsep
  · exact all_digits_no_ws ya c hy4

/-- A rendering headed by a nonempty digit segment is nonempty. -/
theorem render_ne_nil (mStr rest : Str) (hml : mStr.length = 1 ∨ mStr.length = 2) :
    mStr ++ rest ≠ [] := by
  cases mStr with
  | nil => rcases hml with h | h <;> simp at h
  | cons a t => simp

/-- `_parse_date` on a rendered `<month>/<day>/<4-digit year>` string is the
`datetime`-validated date (whether or not the strptime path accepts it, the
permissive fallback agrees). -/
theorem pyParseDate_slash_render (mStr dStr : Str) (m d y : Nat)
    (hma : mStr.all isDigit = true) (hmv : segVal mStr = m)
    (hml : mStr.length = 1 ∨ mStr.length = 2)
    (hda : dStr.all isDigit = true) (hdv : segVal dStr = d)
    (hdl : dStr.length = 1 ∨ dStr.length = 2)
    (hy : y ≤ 9999) :
    pyParseDate (mStr ++ '/' :: (dStr ++ '/' :: render4 y)) = mkDate y m d := by
  have hne := render_ne_nil mStr ('/' :: (dStr ++ '/' :: render4 y)) hml
  have hns := no_ws_mdy '/' (by decide) mStr dStr y hma hda hy
  rw [pyParseDate_eq _ hne hns,
    strpMDY_render '/' (by decide) mStr dStr m d y hma hmv hml hda hdv hdl hy]
  have hymd := strpYMD_not_dash '/' mStr (dStr ++ '/' :: render4 y) hma (by decide) (by decide)
  have hdash := strpMDY_not_sep '-' '/' mStr (dStr ++ '/' :: render4 y) hma (by decide) (by decide)
  have hfb := fallback_slash_render mStr dStr m d y hma hmv hml hda hdv hdl hy
  by_cases hb : ((1 ≤ m ∧ m ≤ 12) ∧ (1 ≤ d ∧ d ≤ 31))
  · rw [if_pos hb]
    cases hmk : mkDate y m d with
    | some iso => rfl
    | none =>
      rw [hymd, hdash, hfb] at *
      simp [hymd, hdash, hfb, hmk]
  · rw [if_neg hb]
    simp [hymd, hdash, hfb]

/-- `_parse_date` on a rendered `YYYY-<month>-<day>` string. -/
theorem pyParseDate_ymd_render (mStr dStr : Str) (m d y : Nat)
    (hma : mStr.all isDigit = true) (hmv : segVal mStr = m)
    (hml : mStr.length = 1 ∨ mStr.length = 2)
    (hda : dStr.all isDigit = true) (hdv : segVal dStr = d)
    (hdl : dStr.length = 1 ∨ dStr.length = 2)
    (hy : y ≤ 9999) :
    pyParseDate (render4 y ++ '-' :: (mStr ++ '-' :: dStr)) = mkDate y m d := by
  obtain ⟨ya, yv, yns, yl⟩ := render4_facts hy
  have hne : render4 y ++ '-' :: (mStr ++ '-' :: dStr) ≠ [] := by simp [render4]
  have hns : ∀ c ∈ render4 y ++ '-' :: (mStr ++ '-' :: dStr), pyIsSpace c = false := by
    intro c hc
    simp only [List.mem_append, List.mem_cons] at hc
    rcases hc with hy4 | rfl | hm | rfl | hd
    · exact yns c hy4
    · decide
    · exact all_digits_no_ws hma c hm
    · decide
    · exact all_digits_no_ws hda c hd
  have hslash := strpMDY_not_sep '/' '-' (render4 y) (mStr ++ '-' :: dStr) ya
    (by decide) (by decide)
  have hbadm : seg12Ok 12 (render4 y) = false := by
    unfold seg12Ok
    rw [yl]
    simp
  have hdashf := strpMDY_bad_month '-' '-' (render4 y) (mStr ++ '-' :: dStr) ya
    (by decide) hbadm
  have hfb := fallback_render4_fail y ('-' :: (mStr ++ '-' :: dStr)) hy
  rw [pyParseDate_eq _ hne hns, hslash,
    strpYMD_render mStr dStr m d y hma hmv hml hda hdv hdl hy]
  by_cases hb : ((1 ≤ m ∧ m ≤ 12) ∧ (1 ≤ d ∧ d ≤ 31))
  · rw [if_pos hb]
    cases hmk : mkDate y m d with
    | some iso => rfl
    | none => simp [hdashf, hfb, hmk]
  · rw [if_neg hb]
    have hmk : mkDate y m d = none := by
      unfold mkDate validDateB
      have : ¬ ((1 ≤ m ∧ m ≤ 12) ∧ (1 ≤ d ∧ d ≤ 31)) := hb
      have hd31 : daysInMonth y m ≤ 31 := by
        unfold daysInMonth
        split
        · split <;> omega
        · split <;> omega
      split
      · next hv =>
        simp only [Bool.and_eq_true, decide_eq_true_eq] at hv
        omega
      · rfl
    simp [hdashf, hfb, hmk]

/-- `_parse_date` on a rendered `<month>-<day>-<4-digit year>` string. -/
theorem pyParseDate_dash_render (mStr dStr : Str) (m d y : Nat)
    (hma : mStr.all isDigit = true) (hmv : segVal mStr = m)
    (hml : mStr.length = 1 ∨ mStr.length = 2)
    (hda : dStr.all isDigit = true) (hdv : segVal dStr = d)
    (hdl : dStr.length = 1 ∨ dStr.length = 2)
    (hy : y ≤ 9999) :
    pyParseDate (mStr ++ '-' :: (dStr ++ '-' :: render4 y)) = mkDate y m d := by
  have hne := render_ne_nil mStr ('-' :: (dStr ++ '-' :: render4 y)) hml
  have hns := no_ws_mdy '-' (by decide) mStr dStr y hma hda hy
  have hslash := strpMDY_not_sep '/' '-' mStr (dStr ++ '-' :: render4 y) hma
    (by decide) (by decide)
  have hlen4 : mStr.length ≠ 4 := by rcases hml with h | h <;> omega
  have hymd := strpYMD_short_year '-' mStr (dStr ++ '-' :: render4 y) hma
    (by decide) hlen4
  have hfb := fallback_dash_fail mStr (dStr ++ '-' :: render4 y) hma hml
  rw [pyParseDate_eq _ hne hns, hslash, hymd,
    strpMDY_render '-' (by decide) mStr dStr m d y hma hmv hml hda hdv hdl hy]
  by_cases hb : ((1 ≤ m ∧ m ≤ 12) ∧ (1 ≤ d ∧ d ≤ 31))
  · rw [if_pos hb]
    cases hmk : mkDate y m d with
    | some iso => rfl
    | none => simp [hfb, hmk]
  · rw [if_neg hb]
    have hmk : mkDate y m d = none := by
      unfold mkDate validDateB
      have hd31 : daysInMonth y m ≤ 31 := by
        unfold daysInMonth
        split
        · split <;> omega
        · split <;> omega
      split
      · next hv =>
        simp only [Bool.and_eq_true, decide_eq_true_eq] at hv
        omega
      · rfl
    simp [hfb, hmk]

/-! ## C5 — claim theorems -/

/-- C5 counterexample: `"07/01/2024x"` matches none of the four date forms
(the trailing `x` spoils every full-string format), yet `_parse_date` returns
`"2024-07-01"` through the prefix-matching fallback pattern instead of
absent. -/
theorem C5_trailing_garbage_counterexample :
    pyParseDate ("07/01/2024x".data) = some ("2024-07-01".data) ∧
      pyParseDate ("07/01/2024x".data) ≠ none := by
  refine ⟨by decide, by decide⟩

/-- C5 (amended): for every year/month/day with a four-digit year and one- or
two-digit month and day, the renderings `MM/DD/YYYY`, `M/D/YYYY`,
`YYYY-MM-DD` and `MM-DD-YYYY` all map to the same result — the zero-padded
ISO string when the triple is a real calendar date, and absent otherwise.
(Strings that match none of the forms return absent unless a *prefix* matches
the permissive `M/D/YYYY` fallback pattern, as the counterexample shows.) -/
theorem C5_parse_date_normalization (y m d : Nat)
    (hy : y ≤ 9999) (hm : m ≤ 99) (hd : d ≤ 99) :
    pyParseDate (render2 m ++ '/' :: (render2 d ++ '/' :: render4 y)) = mkDate y m d ∧
    pyParseDate (render1or2 m ++ '/' :: (render1or2 d ++ '/' :: render4 y)) = mkDate y m d ∧
    pyParseDate (render4 y ++ '-' :: (render2 m ++ '-' :: render2 d)) = mkDate y m d ∧
    pyParseDate (render2 m ++ '-' :: (render2 d ++ '-' :: render4 y)) = mkDate y m d ∧
    (validDateB y m d = true → mkDate y m d = some (isoStr y m d)) ∧
    (validDateB y m d = false → mkDate y m d = none) := by
  obtain ⟨ma2, mv2, _, ml2⟩ := render2_facts hm
  obtain ⟨da2, dv2, _, dl2⟩ := render2_facts hd
  obtain ⟨ma1, mv1, _, ml1⟩ := render1or2_facts hm
  obtain ⟨da1, dv1, _, dl1⟩ := render1or2_facts hd
  refine ⟨?_, ?_, ?_, ?_, ?_, ?_⟩
  · exact pyParseDate_slash_render _ _ m d y ma2 mv2 (Or.inr ml2) da2 dv2 (Or.inr dl2) hy
  · exact pyParseDate_slash_render _ _ m d y ma1 mv1 ml1 da1 dv1 dl1 hy
  · exact pyParseDate_ymd_render _ _ m d y ma2 mv2 (Or.inr ml2) da2 dv2 (Or.inr dl2) hy
  · exact pyParseDate_dash_render _ _ m d y ma2 mv2 (Or.inr ml2) da2 dv2 (Or.inr dl2) hy
  · intro hv
    simp [mkDate, hv]
  · intro hv
    simp [mkDate, hv]

/-- Witness for C5 at July 1, 2024: `"07/01/2024"`, `"7/1/2024"`,
`"2024-07-01"` and `"07-01-2024"` all normalize to `"2024-07-01"`, and the
impossible date `"13/45/2024"` and the empty string return absent. -/
theorem C5_parse_date_normalization_witness :
    (2024 ≤ 9999 ∧ 7 ≤ 99 ∧ 1 ≤ 99) ∧
    (pyParseDate (render2 7 ++ '/' :: (render2 1 ++ '/' :: render4 2024)) = mkDate 2024 7 1 ∧
     pyParseDate (render1or2 7 ++ '/' :: (render1or2 1 ++ '/' :: render4 2024)) = mkDate 2024 7 1 ∧
     pyParseDate (render4 2024 ++ '-' :: (render2 7 ++ '-' :: render2 1)) = mkDate 2024 7 1 ∧
     pyParseDate (render2 7 ++ '-' :: (render2 1 ++ '-' :: render4 2024)) = mkDate 2024 7 1 ∧
     (validDateB 2024 7 1 = true → mkDate 2024 7 1 = some (isoStr 2024 7 1)) ∧
     (validDateB 2024 7 1 = false → mkDate 2024 7 1 = none)) ∧
    mkDate 2024 7 1 = some ("2024-07-01".data) ∧
    pyParseDate ("13/45/2024".data) = none ∧
    pyParseDate ("".data) = none :=
  ⟨⟨by decide, by decide, by decide⟩,
   C5_parse_date_normalization 2024 7 1 (by decide) (by decide) (by decide),
   by decide, by decide, by decide⟩

/-! ## C6 — column locator -/

/-- A cell carries a label: it is truthy and its uppercased text contains
`lbl`. -/
def cellHasLabel (lbl : Str) (c : Cell) : Bool :=
  match c with
  | some s => s ≠ [] && strContains (pyUpper s) lbl
  | none => false

/-- A cell matches the insurer-letter header label (`INSR` and `LTR`). -/
def cellHasInsrLtr (c : Cell) : Bool :=
  match c with
  | some s => s ≠ [] && strContains (pyUpper s) ("INSR".data) &&
      strContains (pyUpper s) ("LTR".data)
  | none => false

/-- Some cell of the row carries the label. -/
def rowHasLabel (row : Row) (lbl : Str) : Bool := row.any (cellHasLabel lbl)

/-- `colsStep` records the policy-number column exactly when the cell
carries the `POLICY NUMBER` label. -/
theorem colsStep_pn (acc : ColsAcc) (i : Nat) (c : Cell) :
    (colsStep acc i c).pn
      = if cellHasLabel ("POLICY NUMBER".data) c then some i else acc.pn := by
  cases c with
  | none => simp [colsStep, cellHasLabel]
  | some s =>
    by_cases hs : s = []
    · simp [colsStep, cellHasLabel, hs]
    · by_cases hpn : strContains (pyUpper s) ("POLICY NUMBER".data)
      · simp [colsStep, cellHasLabel, hs, hpn]
      · simp [colsStep, cellHasLabel, hs, hpn]
        split_ifs <;> first
          | rfl
          | (cases hl : acc.limits <;> simp [hl])

/-- Eff column is untouched by cells without the `POLICY EFF` label. -/
theorem colsStep_eff_pres (acc : ColsAcc) (i : Nat) (c : Cell)
    (h : cellHasLabel ("POLICY EFF".data) c = false) :
    (colsStep acc i c).eff = acc.eff := by
  cases c with
  | none => rfl
  | some s =>
    by_cases hs : s = []
    · simp [colsStep, hs]
    · simp [cellHasLabel, hs] at h
      simp [colsStep, hs]
      split_ifs with h1 h2 h3 h4 h5
      · rfl
      · rw [h] at h2; exact Bool.noConfusion h2
      · rfl
      · cases hl : acc.limits <;> simp [hl]
      · rfl
      · rfl

/-- Exp column is untouched by cells without the `POLICY EXP` label. -/
theorem colsStep_exp_pres (acc : ColsAcc) (i : Nat) (c : Cell)
    (h : cellHasLabel ("POLICY EXP".data) c = false) :
    (colsStep acc i c).exp = acc.exp := by
  cases c with
  | none => rfl
  | some s =>
    by_cases hs : s = []
    · simp [colsStep, hs]
    · simp [cellHasLabel, hs] at h
      simp [colsStep, hs]
      split_ifs with h1 h2 h3 h4 h5
      · rfl
      · rfl
      · rw [h] at h3; exact Bool.noConfusion h3
      · cases hl : acc.limits <;> simp [hl]
      · rfl
      · rfl

/-- Limits column is untouched by cells without the `LIMITS` label. -/
theorem colsStep_limits_pres (acc : ColsAcc) (i : Nat) (c : Cell)
    (h : cellHasLabel ("LIMITS".data) c = false) :
    (colsStep acc i c).limits = acc.limits := by
  cases c with
  | none => rfl
  | some s =>
    by_cases hs : s = []
    · simp [colsStep, hs]
    · simp [cellHasLabel, hs] at h
      simp [colsStep, hs]
      split_ifs with h1 h2 h3 h4 h5
      · rfl
      · rfl
      · rfl
      · rw [h] at h4; exact Bool.noConfusion h4
      · rfl
      · rfl

/-- Letter column is untouched by cells without the `INSR`+`LTR` labels. -/
theorem colsStep_ltr_pres (acc : ColsAcc) (i : Nat) (c : Cell)
    (h : cellHasInsrLtr c = false) :
    (colsStep acc i c).ltr = acc.ltr := by
  cases c with
  | none => rfl
  | some s =>
    by_cases hs : s = []
    · simp [colsStep, hs]
    · simp [cellHasInsrLtr, hs] at h
      simp [colsStep, hs]
      split_ifs with h1 h2 h3 h4 h5
      · rfl
      · rfl
      · rfl
      · cases hl : acc.limits <;> simp [hl]
      · simp_all
      · rfl

/-- The policy-number role after the scan: recorded iff present before or
labelled in the remaining cells. -/
theorem colsGo_pn (row : Row) : ∀ (i : Nat) (acc : ColsAcc),
    (colsGo i acc row).pn = none
      ↔ acc.pn = none ∧ rowHasLabel row ("POLICY NUMBER".data) = false := by
  induction row with
  | nil => intro i acc; simp [colsGo, rowHasLabel]
  | cons c rest ih =>
    intro i acc
    rw [colsGo, ih]
    rw [colsStep_pn]
    by_cases hc : cellHasLabel ("POLICY NUMBER".data) c = true
    · simp [hc, rowHasLabel]
    · simp only [Bool.not_eq_true] at hc
      simp [hc, rowHasLabel]

/-- Eff preservation over the scan. -/
theorem colsGo_eff (row : Row) : ∀ (i : Nat) (acc : ColsAcc),
    rowHasLabel row ("POLICY EFF".data) = false → (colsGo i acc row).eff = acc.eff := by
  induction row with
  | nil => intro i acc _; rfl
  | cons c rest ih =>
    intro i acc h
    simp only [rowHasLabel, List.any_cons, Bool.or_eq_false_iff] at h
    rw [colsGo, ih _ _ h.2, colsStep_eff_pres _ _ _ h.1]

/-- Exp preservation over the scan. -/
theorem colsGo_exp (row : Row) : ∀ (i : Nat) (acc : ColsAcc),
    rowHasLabel row ("POLICY EXP".data) = false → (colsGo i acc row).exp = acc.exp := by
  induction row with
  | nil => intro i acc _; rfl
  | cons c rest ih =>
    intro i acc h
    simp only [rowHasLabel, List.any_cons, Bool.or_eq_false_iff] at h
    rw [colsGo, ih _ _ h.2, colsStep_exp_pres _ _ _ h.1]

/-- Limits preservation over the scan. -/
theorem colsGo_limits (row : Row) : ∀ (i : Nat) (acc : ColsAcc),
    rowHasLabel row ("LIMITS".data) = false → (colsGo i acc row).limits = acc.limits := by
  induction row with
  | nil => intro i acc _; rfl
  | cons c rest ih =>
    intro i acc h
    simp only [rowHasLabel, List.any_cons, Bool.or_eq_false_iff] at h
    rw [colsGo, ih _ _ h.2, colsStep_limits_pres _ _ _ h.1]

/-- Letter preservation over the scan. -/
theorem colsGo_ltr (row : Row) : ∀ (i : Nat) (acc : ColsAcc),
    row.any cellHasInsrLtr = false → (colsGo i acc row).ltr = acc.ltr := by
  induction row with
  | nil => intro i acc _; rfl
  | cons c rest ih =>
    intro i acc h
    simp only [List.any_cons, Bool.or_eq_false_iff] at h
    rw [colsGo, ih _ _ h.2, colsStep_ltr_pres _ _ _ h.1]

/-- C6: the Column Locator returns absent exactly when no cell contains the
substring `POLICY NUMBER`; otherwise missing roles default to
`effective = pn + 1`, `expiration = pn + 2`, `limits-start = expiration + 1`,
`insurer-letter = 0` (roles found by label substring keep their discovered
indices regardless of column order — see the permuted-header witness). -/
theorem C6_column_locator (row : Row) :
    (find_column_indices row = none
        ↔ rowHasLabel row ("POLICY NUMBER".data) = false) ∧
    (∀ cols, find_column_indices row = some cols →
      (rowHasLabel row ("POLICY EFF".data) = false → cols.eff = cols.pn + 1) ∧
      (rowHasLabel row ("POLICY EXP".data) = false → cols.exp = cols.pn + 2) ∧
      (rowHasLabel row ("LIMITS".data) = false → cols.limits = cols.exp + 1) ∧
      (row.any cellHasInsrLtr = false → cols.ltr = 0)) := by
  constructor
  · unfold find_column_indices
    cases hpn : (colsGo 0 ⟨none, none, none, none, none⟩ row).pn with
    | none =>
      simp only [hpn]
      have := (colsGo_pn row 0 ⟨none, none, none, none, none⟩).mp hpn
      simp [this.2]
    | some pn =>
      simp only [hpn]
      constructor
      · intro h
        simp at h
      · intro h
        have : (colsGo 0 ⟨none, none, none, none, none⟩ row).pn = none :=
          (colsGo_pn row 0 ⟨none, none, none, none, none⟩).mpr ⟨rfl, h⟩
        rw [hpn] at this
        simp at this
  · intro cols hcols
    simp only [find_column_indices] at hcols
    cases hpn : (colsGo 0 ⟨none, none, none, none, none⟩ row).pn with
    | none => rw [hpn] at hcols; simp at hcols
    | some pn =>
      rw [hpn] at hcols
      simp only [Option.some.injEq] at hcols
      subst hcols
      refine ⟨?_, ?_, ?_, ?_⟩
      · intro h
        simp [colsGo_eff row 0 _ h]
      · intro h
        simp [colsGo_exp row 0 _ h]
      · intro h
        simp [colsGo_limits row 0 _ h]
      · intro h
        simp [colsGo_ltr row 0 _ h]

/-- A header row with permuted columns (`LIMITS` before `POLICY NUMBER`). -/
def permutedHeaderRow : Row :=
  [some ("LIMITS".data), some ("INSR LTR".data), some ("POLICY NUMBER".data),
   some ("POLICY EXP".data), some ("POLICY EFF".data)]

/-- Witness for C6: on a permuted header all roles resolve to the discovered
indices, on a `POLICY NUMBER`-only row all defaults apply, and a row without
the label is rejected. -/
theorem C6_column_locator_witness :
    find_column_indices permutedHeaderRow = some ⟨2, 4, 3, 0, 1⟩ ∧
    (find_column_indices ([some ("no policies here".data)] : Row) = none
        ↔ rowHasLabel [some ("no policies here".data)] ("POLICY NUMBER".data) = false) ∧
    (find_column_indices ([some ("POLICY NUMBER".data)] : Row)
        = some ⟨0, 1, 2, 3, 0⟩ ∧
      ((0 : Nat) + 1 = 1 ∧ (0 : Nat) + 2 = 2 ∧ (2 : Nat) + 1 = 3)) :=
  ⟨by decide, (C6_column_locator [some ("no policies here".data)]).1,
   by decide, by decide, by decide, by decide⟩

/-! ## C8 — region-wide limits collection -/

/-- Modelled from the claim's words for comparison (refinement check only):
"the *first* cell containing a digit and looking like a currency amount is
the value"; the source's loop has no break, so this differs from
`collectGo`. -/
def collectFirstGo (row : Row) : List Nat → Str × Str → Str × Str
  | [], nv => nv
  | ci :: rest, (n, v) =>
    let txt := cellClean (row.getD ci none)
    if txt = [] || txt = ['$'] then collectFirstGo row rest (n, v)
    else if currencyLike txt then
      collectFirstGo row rest (n, if v = [] then txt else v)
    else collectFirstGo row rest (if n = [] then txt else n, v)

/-- The claim's first-wins variant of `_collect_limits_range`. -/
def collect_limits_range_claim (row : Row) (limitsStart : Nat) : List (Str × Str) :=
  if row.length ≤ limitsStart then []
  else
    let nv := collectFirstGo row (List.range' limitsStart (row.length - limitsStart)) ([], [])
    if nv.1 ≠ [] && nv.2 ≠ [] then
      let value := limitValueClean (pyStrip nv.2)
      if value ≠ [] then [(nv.1, '$' :: value)] else []
    else []

/-- The row refuting C8: two currency-looking cells after the name. -/
def c8row : Row := [some ("AGG".data), some ("$100".data), some ("$200".data)]

/-- C8 counterexample: the source keeps the *last* currency-looking cell as
the value (`$200`), not the first (`$100`) as the claim states. -/
theorem C8_first_value_counterexample :
    collect_limits_range c8row 0 = [("AGG".data, "$200".data)] ∧
    collect_limits_range_claim c8row 0 = [("AGG".data, "$100".data)] ∧
    collect_limits_range c8row 0 ≠ collect_limits_range_claim c8row 0 := by
  refine ⟨by decide, by decide, by decide⟩

/-- The cleaned, truthy, non-`"$"` cell texts of the limits region. -/
def regionTexts (row : Row) (start : Nat) : List Str :=
  ((List.range' start (row.length - start)).map
      (fun ci => cellClean (row.getD ci none))).filter
    (fun t => t ≠ [] && t ≠ ['$'])

/-- Proof helper: `collectGo` seen on the cell texts alone. -/
def textsGoSpec : List Str → Str × Str → Str × Str
  | [], nv => nv
  | txt :: rest, (n, v) =>
    if txt = [] || txt = ['$'] then textsGoSpec rest (n, v)
    else if currencyLike txt then textsGoSpec rest (n, txt)
    else textsGoSpec rest (txt, v)

/-- `collectGo` only consumes the indices through their cleaned cell
texts. -/
theorem collectGo_eq_textsGo (row : Row) : ∀ (idxs : List Nat) (n v : Str),
    collectGo row idxs (n, v)
      = textsGoSpec (idxs.map fun ci => cellClean (row.getD ci none)) (n, v) := by
  intro idxs
  induction idxs with
  | nil => intro n v; rfl
  | cons ci rest ih =>
    intro n v
    simp only [collectGo, textsGoSpec, List.map_cons, ih]

/-- `textsGoSpec` keeps the last qualifying name and value texts. -/
theorem textsGoSpec_eq : ∀ (ts : List Str) (n v : Str),
    textsGoSpec ts (n, v)
      = (((ts.filter (fun t => t ≠ [] && t ≠ ['$'])).filter
            (fun t => !currencyLike t)).getLastD n,
         ((ts.filter (fun t => t ≠ [] && t ≠ ['$'])).filter currencyLike).getLastD v) := by
  intro ts
  induction ts with
  | nil => intro n v; rfl
  | cons txt rest ih =>
    intro n v
    by_cases h0 : (txt = [] ∨ txt = ['$'])
    · have hskip : (txt = [] || txt = ['$']) = true := by
        rcases h0 with h | h <;> rw [h] <;> decide
      have hfilter : (txt ≠ [] && txt ≠ ['$']) = false := by
        rcases h0 with h | h <;> rw [h] <;> decide
      rw [textsGoSpec]
      simp only [hskip, if_true]
      rw [ih n v]
      rcases h0 with h | h <;> subst h <;> simp [List.filter_cons]
    · push_neg at h0
      have hskip : (txt = [] || txt = ['$']) = false := by simp [h0.1, h0.2]
      have e1 : List.filter (fun t => t ≠ [] && t ≠ ['$']) (txt :: rest)
          = txt :: List.filter (fun t => t ≠ [] && t ≠ ['$']) rest := by
        rw [List.filter_cons]
        simp [h0.1, h0.2]
      by_cases hc : currencyLike txt = true
      · have e2 : List.filter currencyLike
            (txt :: List.filter (fun t => t ≠ [] && t ≠ ['$']) rest)
            = txt :: List.filter currencyLike
                (List.filter (fun t => t ≠ [] && t ≠ ['$']) rest) := by
          rw [List.filter_cons]
          simp [hc]
        have e3 : List.filter (fun t => !currencyLike t)
            (txt :: List.filter (fun t => t ≠ [] && t ≠ ['$']) rest)
            = List.filter (fun t => !currencyLike t)
                (List.filter (fun t => t ≠ [] && t ≠ ['$']) rest) := by
          rw [List.filter_cons]
          simp [hc]
        rw [textsGoSpec]
        simp only [hskip, Bool.false_eq_true, if_false, hc, if_true]
        rw [ih n txt, e1, e2, e3, List.getLastD_cons]
      · simp only [Bool.not_eq_true] at hc
        have e2 : List.filter currencyLike
            (txt :: List.filter (fun t => t ≠ [] && t ≠ ['$']) rest)
            = List.filter currencyLike
                (List.filter (fun t => t ≠ [] && t ≠ ['$']) rest) := by
          rw [List.filter_cons]
          simp [hc]
        have e3 : List.filter (fun t => !currencyLike t)
            (txt :: List.filter (fun t => t ≠ [] && t ≠ ['$']) rest)
            = txt :: List.filter (fun t => !currencyLike t)
                (List.filter (fun t => t ≠ [] && t ≠ ['$']) rest) := by
          rw [List.filter_cons]
          simp [hc]
        rw [textsGoSpec]
        simp only [hskip, Bool.false_eq_true, if_false, hc, if_true]
        rw [ih txt v, e1, e2, e3, List.getLastD_cons]

/-- A `getLast?` value is a member of the list. -/
theorem mem_of_getLast?_eq {α : Type} {l : List α} {a : α}
    (h : l.getLast? = some a) : a ∈ l := by
  have hx : a ∈ l.getLast? := by rw [h]; rfl
  obtain ⟨hne, heq⟩ := List.mem_getLast?_eq_getLast hx
  rw [heq]
  exact List.getLast_mem hne

/-- C8 (amended): the region scan from limits-start to the end of the row
yields at most one name → value pair; the value is the *last* cell containing
a digit and looking like a currency amount (contains `$` or matches the
digits/comma/period/space/dollar-only pattern), the name is the *last* other
non-empty cell, and the stored value is `"$"` followed by the cleaned numeric
string (dropped entirely when cleaning empties it). -/
theorem C8_collect_limits_last (row : Row) (start : Nat) :
    (collect_limits_range row start).length ≤ 1 ∧
    collect_limits_range row start =
      (match ((regionTexts row start).filter (fun t => !currencyLike t)).getLast?,
             ((regionTexts row start).filter currencyLike).getLast? with
       | some n, some v =>
         if limitValueClean (pyStrip v) ≠ [] then
           [(n, '$' :: limitValueClean (pyStrip v))]
         else []
       | _, _ => []) := by
  have heq : collect_limits_range row start =
      (match ((regionTexts row start).filter (fun t => !currencyLike t)).getLast?,
             ((regionTexts row start).filter currencyLike).getLast? with
       | some n, some v =>
         if limitValueClean (pyStrip v) ≠ [] then
           [(n, '$' :: limitValueClean (pyStrip v))]
         else []
       | _, _ => []) := by
    unfold collect_limits_range regionTexts
    by_cases hlen : row.length ≤ start
    · have h0 : row.length - start = 0 := by omega
      simp [hlen, h0, List.range']
    · rw [if_neg hlen]
      rw [collectGo_eq_textsGo, textsGoSpec_eq]
      cases hn : (((List.range' start (row.length - start)).map
          (fun ci => cellClean (row.getD ci none))).filter
            (fun t => t ≠ [] && t ≠ ['$'])).filter
              (fun t => !currencyLike t) |>.getLast? with
      | none =>
        rw [List.getLastD_eq_getLast?, hn]
        simp
      | some n =>
        rw [List.getLastD_eq_getLast?, hn]
        cases hv : (((List.range' start (row.length - start)).map
            (fun ci => cellClean (row.getD ci none))).filter
              (fun t => t ≠ [] && t ≠ ['$'])).filter currencyLike |>.getLast? with
        | none =>
          rw [List.getLastD_eq_getLast?, hv]
          simp
        | some v =>
          rw [List.getLastD_eq_getLast?, hv]
          have hnne : n ≠ [] := by
            have := (List.mem_filter.mp
              (List.mem_filter.mp (mem_of_getLast?_eq hn)).1).2
            simp at this
            exact this.1
          have hvne : v ≠ [] := by
            have := (List.mem_filter.mp
              (List.mem_filter.mp (mem_of_getLast?_eq hv)).1).2
            simp at this
            exact this.1
          simp [hnne, hvne]
  refine ⟨?_, heq⟩
  rw [heq]
  cases ((regionTexts row start).filter (fun t => !currencyLike t)).getLast? with
  | none => simp
  | some n =>
    cases ((regionTexts row start).filter currencyLike).getLast? with
    | none => simp
    | some v =>
      simp only []
      split_ifs <;> simp

/-! ## C7 — emitted policies always carry validated ISO dates -/

/-- A string is a zero-padded ISO rendering of a real calendar date. -/
def isIsoOfValid (s : Str) : Prop :=
  ∃ y m d, validDateB y m d = true ∧ s = isoStr y m d

/-- `mkDate` only succeeds with a validated ISO string. -/
theorem mkDate_some {y m d : Nat} {r : Str} (h : mkDate y m d = some r) :
    isIsoOfValid r := by
  unfold mkDate at h
  split_ifs at h with hv
  exact ⟨y, m, d, hv, (Option.some.inj h).symm⟩

/-- `strpMDY` only succeeds with a validated ISO string. -/
theorem strpMDY_some {sep : Char} {s r : Str} (h : strpMDY sep s = some r) :
    isIsoOfValid r := by
  simp only [strpMDY] at h
  repeat' split at h
  all_goals first | exact mkDate_some h | exact Option.noConfusion h

/-- `strpYMD` only succeeds with a validated ISO string. -/
theorem strpYMD_some {s r : Str} (h : strpYMD s = some r) : isIsoOfValid r := by
  simp only [strpYMD] at h
  repeat' split at h
  all_goals first | exact mkDate_some h | exact Option.noConfusion h

/-- `fallbackSlashDate` only succeeds with a validated ISO string. -/
theorem fallback_some {s r : Str} (h : fallbackSlashDate s = some r) :
    isIsoOfValid r := by
  simp only [fallbackSlashDate] at h
  repeat' split at h
  all_goals first | exact mkDate_some h | exact Option.noConfusion h

/-- `_parse_date` only succeeds with a validated ISO string. -/
theorem pyParseDate_iso {raw s : Str} (h : pyParseDate raw = some s) :
    isIsoOfValid s := by
  simp only [pyParseDate] at h
  by_cases hr : raw = []
  · rw [if_pos hr] at h
    exact Option.noConfusion h
  · rw [if_neg hr] at h
    cases h1 : strpMDY '/' (pyStrip raw) with
    | some r =>
      rw [h1] at h
      obtain rfl : r = s := Option.some.inj h
      exact strpMDY_some h1
    | none =>
      rw [h1] at h
      cases h2 : strpYMD (pyStrip raw) with
      | some r =>
        rw [h2] at h
        obtain rfl : r = s := Option.some.inj h
        exact strpYMD_some h2
      | none =>
        rw [h2] at h
        cases h3 : strpMDY '-' (pyStrip raw) with
        | some r =>
          rw [h3] at h
          obtain rfl : r = s := Option.some.inj h
          exact strpMDY_some h3
        | none =>
          rw [h3] at h
          exact fallback_some h

/-- All policies of a list carry validated ISO dates on both ends. -/
def datesOk (ps : List Policy) : Prop :=
  ∀ p ∈ ps, isIsoOfValid p.policyEffectiveDate ∧ isIsoOfValid p.policyExpirationDate

/-- Type detection leaves the emitted policies untouched. -/
theorem stepType_policies (cols : Cols) (s : ScanState) (row : Row) :
    (stepType cols s row).policies = s.policies := by
  simp only [stepType]
  split_ifs <;> rfl

/-- Letter detection leaves the emitted policies untouched. -/
theorem stepLetter_policies (cols : Cols) (s : ScanState) (row : Row) :
    (stepLetter cols s row).policies = s.policies := by
  simp only [stepLetter]
  split_ifs <;> rfl

/-- The continuation merge only rewrites limits and type, never dates. -/
theorem contStep_datesOk (s : ScanState) (rl : List (Str × Str))
    (hd : datesOk s.policies) : datesOk (contStep s rl).policies := by
  cases hix : s.lastPolicyIdx with
  | none => simp only [contStep, hix]; exact hd
  | some i =>
    cases hget : s.policies.get? i with
    | none => simp only [contStep, hix, hget]; exact hd
    | some p =>
      simp only [contStep, hix, hget]
      have hp := hd p (List.get?_mem hget)
      split_ifs <;>
        · intro q hq
          rcases List.mem_or_eq_of_mem_set hq with hq' | rfl
          · exact hd q hq'
          · exact hp

set_option maxHeartbeats 1000000 in
/-- One emitted sub-line carries dates produced by `_parse_date`. -/
theorem emitEntry_datesOk (pnL effL expL ltrL lnL lvL : List Str)
    (s : ScanState) (idx : Nat) (hd : datesOk s.policies) :
    datesOk (emitEntry pnL effL expL ltrL lnL lvL s idx).policies := by
  cases heq1 : pyParseDate (pyCleanStr (effL.getD idx [])) with
  | none =>
    simp only [emitEntry, heq1]
    split_ifs <;> exact hd
  | some effD =>
    cases heq2 : pyParseDate (pyCleanStr (expL.getD idx [])) with
    | none =>
      simp only [emitEntry, heq1, heq2]
      split_ifs <;> exact hd
    | some expD =>
      simp only [emitEntry, heq1, heq2]
      split_ifs
      all_goals try exact hd
      all_goals
        intro q hq
        rcases List.mem_append.mp hq with h | h
        · exact hd q h
        · rw [List.mem_singleton.mp h]
          exact ⟨pyParseDate_iso heq1, pyParseDate_iso heq2⟩

/-- A fold preserves `datesOk` whenever its step does. -/
theorem foldl_datesOk {α : Type} (f : ScanState → α → ScanState)
    (hf : ∀ s a, datesOk s.policies → datesOk (f s a).policies) :
    ∀ (l : List α) (s : ScanState),
      datesOk s.policies → datesOk (l.foldl f s).policies := by
  intro l
  induction l with
  | nil => intro s h; exact h
  | cons a rest ih => intro s h; exact ih (f s a) (hf s a h)

/-- A policy-bearing row only appends `_parse_date`-validated records. -/
theorem emitRow_datesOk (cols : Cols) (s : ScanState) (row : Row)
    (hd : datesOk s.policies) : datesOk (emitRow cols s row).policies := by
  simp only [emitRow]
  exact foldl_datesOk _ (fun s' i h => emitEntry_datesOk _ _ _ _ _ _ s' i h) _ s hd

/-- One scanned row preserves `datesOk`. -/
theorem scanRow_datesOk (cols : Cols) (s : ScanState) (row : Row)
    (hd : datesOk s.policies) : datesOk (scanRow cols s row).policies := by
  have hd2 : datesOk (stepLetter cols (stepType cols s row) row).policies := by
    rw [stepLetter_policies, stepType_policies]
    exact hd
  simp only [scanRow]
  split_ifs with h1 h2 h3 h4
  · exact hd
  · exact contStep_datesOk _ _ hd2
  · exact hd2
  · exact hd2
  · exact emitRow_datesOk cols _ row hd2

/-- C7: every PolicyRecord emitted by the Policy Grid Interpreter carries a
`_parse_date`-validated ISO date on both ends — a sub-line whose effective or
expiration date fails to parse contributes no record, and no record with a
missing date is ever emitted. -/
theorem C7_emitted_dates_iso (table : Table) :
    ∀ p ∈ parse_policy_table table,
      isIsoOfValid p.policyEffectiveDate ∧ isIsoOfValid p.policyExpirationDate := by
  unfold parse_policy_table
  split_ifs with h
  · intro p hp
    simp at hp
  · cases hfh : findHeader table with
    | none =>
      intro p hp
      simp at hp
    | some pr =>
      obtain ⟨cols, rest⟩ := pr
      exact foldl_datesOk (scanRow cols) (fun s r h => scanRow_datesOk cols s r h)
        rest initScan (fun p hp => by simp [initScan] at hp)

/-- The single record the dedup table produces. -/
def cglPolicy : Policy :=
  ⟨"Commercial General Liability".data, "GL-12345".data,
   "2024-01-01".data, "2025-01-01".data, none, some ("A".data)⟩

/-- Witness for C7: the record emitted from the dedup table carries validated
ISO dates on both ends. -/
theorem C7_emitted_dates_iso_witness :
    cglPolicy ∈ parse_policy_table dedupTable ∧
      isIsoOfValid cglPolicy.policyEffectiveDate ∧
      isIsoOfValid cglPolicy.policyExpirationDate :=
  ⟨by decide,
   C7_emitted_dates_iso dedupTable cglPolicy (by decide)⟩

/-! ## C1 — dedup-key uniqueness -/

/-- C1 counterexample: after the rows of `C1table` — a stacked row emitting
`Workers Compensation|P1` and `Other|P1`, then a continuation row whose
`PER STATUTE` limit relabels the `Other` record to `Workers Compensation` —
the list contains two records with the same
(typeOfInsurance, policyNumber) pair. -/
theorem C1_relabel_duplicate_counterexample :
    ¬ (parse_policy_table C1table).Pairwise
        (fun p q => (p.typeOfInsurance, p.policyNumber)
          ≠ (q.typeOfInsurance, q.policyNumber)) := by
  decide

/-- No data row of the table is a continuation row: each is empty, carries a
policy number, or collects no limits. -/
def noContinuationRowsB (table : Table) : Bool :=
  match findHeader table with
  | none => true
  | some (cols, rest) =>
    rest.all fun r =>
      r = [] || cellStr r cols.pn ≠ [] || (collect_limits_range r cols.limits).isEmpty

/-- Membership form of `List.contains` on strings. -/
theorem strList_contains_iff (l : List Str) (k : Str) :
    l.contains k = true ↔ k ∈ l := by
  simp [List.contains, List.elem_iff]

/-- `setAdd` contains the added key. -/
theorem mem_setAdd_self (s : List Str) (k : Str) : k ∈ setAdd s k := by
  unfold setAdd
  split_ifs with h
  · exact (strList_contains_iff s k).mp h
  · exact List.mem_cons_self k s

/-- `setAdd` keeps existing members. -/
theorem mem_setAdd_of_mem (s : List Str) (k a : Str) (h : a ∈ s) :
    a ∈ setAdd s k := by
  unfold setAdd
  split_ifs
  · exact h
  · exact List.mem_cons_of_mem k h

/-- The scan invariant: emitted keys are pairwise distinct and recorded in
the seen-set. -/
def scanInv (s : ScanState) : Prop :=
  s.policies.Pairwise (fun p q => policyKey p ≠ policyKey q) ∧
  ∀ p ∈ s.policies, policyKey p ∈ s.seen

/-- Type and letter detection preserve the scan invariant. -/
theorem stepType_inv (cols : Cols) (s : ScanState) (row : Row)
    (h : scanInv s) : scanInv (stepType cols s row) := by
  simp only [stepType]
  split_ifs <;> exact h

/-- See `stepType_inv`. -/
theorem stepLetter_inv (cols : Cols) (s : ScanState) (row : Row)
    (h : scanInv s) : scanInv (stepLetter cols s row) := by
  simp only [stepLetter]
  split_ifs <;> exact h

/-- The dedup branch of an emitted sub-line preserves the scan invariant:
either the key was seen (no change to records), or the record with that key
is appended and the key enters the seen-set. -/
theorem scanInv_branch (s : ScanState) (Q : List Str) (L T P eD xD : Str)
    (lim : Option (List (Str × Str))) (ltr : Option Str) (pend : List Str)
    (hI : scanInv s) :
    scanInv
      (if s.seen.contains (T ++ '|' :: P) = true then
        { s with typeQueue := Q, lastConsumedType := L }
      else
        { policies := s.policies ++ [⟨T, P, eD, xD, lim, ltr⟩]
          seen := setAdd s.seen (T ++ '|' :: P)
          typeQueue := Q
          currentLetter := s.currentLetter
          lastConsumedType := L
          lastPolicyIdx := some s.policies.length
          pendingLimitNames := pend }) := by
  split_ifs with hcont
  · exact hI
  · constructor
    · refine List.pairwise_append.mpr ⟨hI.1, List.pairwise_singleton _ _, ?_⟩
      intro a ha b hb
      rw [List.mem_singleton.mp hb]
      intro hkey
      have hc : policyKey a ∈ s.seen := hI.2 a ha
      rw [hkey] at hc
      exact absurd ((strList_contains_iff _ _).mpr hc) hcont
    · intro q hq
      rcases List.mem_append.mp hq with h | h
      · exact mem_setAdd_of_mem _ _ _ (hI.2 q h)
      · rw [List.mem_singleton.mp h]
        exact mem_setAdd_self _ _

/-- One emitted sub-line preserves the scan invariant. -/
theorem emitEntry_inv (pnL effL expL ltrL lnL lvL : List Str)
    (s : ScanState) (idx : Nat) (hI : scanInv s) :
    scanInv (emitEntry pnL effL expL ltrL lnL lvL s idx) := by
  cases heq1 : pyParseDate (pyCleanStr (effL.getD idx [])) with
  | none =>
    simp only [emitEntry, heq1]
    split_ifs <;> exact hI
  | some effD =>
    cases heq2 : pyParseDate (pyCleanStr (expL.getD idx [])) with
    | none =>
      simp only [emitEntry, heq1, heq2]
      split_ifs <;> exact hI
    | some expD =>
      simp only [emitEntry, heq1, heq2]
      split
      · exact hI
      · exact scanInv_branch s _ _ _ _ _ _ _ _ _ hI

/-- Unconditional fold preservation of the scan invariant. -/
theorem foldl_scanInv {α : Type} (f : ScanState → α → ScanState)
    (hf : ∀ s a, scanInv s → scanInv (f s a)) :
    ∀ (l : List α) (s : ScanState), scanInv s → scanInv (l.foldl f s) := by
  intro l
  induction l with
  | nil => intro s h; exact h
  | cons a rest ih => intro s h; exact ih (f s a) (hf s a h)

/-- Conditional fold preservation of the scan invariant. -/
theorem foldl_scanInv_cond (f : ScanState → Row → ScanState) (P : Row → Prop)
    (hf : ∀ s r, P r → scanInv s → scanInv (f s r)) :
    ∀ (l : List Row) (s : ScanState),
      (∀ r ∈ l, P r) → scanInv s → scanInv (l.foldl f s) := by
  intro l
  induction l with
  | nil => intro s _ h; exact h
  | cons a rest ih =>
    intro s hP h
    exact ih (f s a) (fun r hr => hP r (List.mem_cons_of_mem a hr))
      (hf s a (hP a (List.mem_cons_self a rest)) h)

/-- A policy-bearing row preserves the scan invariant. -/
theorem emitRow_inv (cols : Cols) (s : ScanState) (row : Row)
    (hI : scanInv s) : scanInv (emitRow cols s row) := by
  simp only [emitRow]
  exact foldl_scanInv _ (fun s' i h => emitEntry_inv _ _ _ _ _ _ s' i h) _ s hI

/-- A row that is empty, policy-numbered, or limit-free preserves the scan
invariant (such a row never reaches the continuation-relabel branch). -/
theorem scanRow_inv (cols : Cols) (s : ScanState) (row : Row)
    (hrow : row = [] ∨ cellStr row cols.pn ≠ [] ∨
      collect_limits_range row cols.limits = [])
    (hI : scanInv s) : scanInv (scanRow cols s row) := by
  have hs2 : scanInv (stepLetter cols (stepType cols s row) row) :=
    stepLetter_inv _ _ _ (stepType_inv _ _ _ hI)
  simp only [scanRow]
  split_ifs with h1 h2 h3 h4
  · exact hI
  · exfalso
    simp only [Bool.and_eq_true, decide_eq_true_eq] at h2
    rcases hrow with h | h | h
    · exact h1 h
    · exact h h2.1.1
    · exact h2.1.2 h
  · exact hs2
  · exact hs2
  · exact emitRow_inv cols _ row hs2

/-- C1 (amended): for every input table containing no continuation row (no
data row with an empty policy-number cell but nonempty collected limits), the
policy list never contains two records with the same
(typeOfInsurance, policyNumber) pair — a later row or sub-line producing an
already-seen key is dropped.  (A continuation row that retroactively relabels
an `"Other"` record can collide with an already-seen key and duplicate it, as
the counterexample shows.) -/
theorem C1_dedup_unique (table : Table)
    (H : noContinuationRowsB table = true) :
    (parse_policy_table table).Pairwise
      (fun p q => (p.typeOfInsurance, p.policyNumber)
        ≠ (q.typeOfInsurance, q.policyNumber)) := by
  unfold parse_policy_table
  split_ifs with h
  · exact List.Pairwise.nil
  · cases hfh : findHeader table with
    | none => exact List.Pairwise.nil
    | some pr =>
      obtain ⟨cols, rest⟩ := pr
      unfold noContinuationRowsB at H
      rw [hfh] at H
      have hP : ∀ r ∈ rest, r = [] ∨ cellStr r cols.pn ≠ [] ∨
          collect_limits_range r cols.limits = [] := by
        intro r hr
        have := List.all_eq_true.mp H r hr
        simp only [Bool.or_eq_true, decide_eq_true_eq, List.isEmpty_iff] at this
        tauto
      have hInv := foldl_scanInv_cond (scanRow cols) _
        (fun s r hPr hI => scanRow_inv cols s r hPr hI) rest initScan hP
        ⟨List.Pairwise.nil, by intro p hp; simp [initScan] at hp⟩
      refine hInv.1.imp ?_
      intro p q hk hpair
      apply hk
      have h1 : p.typeOfInsurance = q.typeOfInsurance := (Prod.mk.injEq _ _ _ _ ▸ hpair : _ ∧ _).1
      have h2 : p.policyNumber = q.policyNumber := (Prod.mk.injEq _ _ _ _ ▸ hpair : _ ∧ _).2
      unfold policyKey
      rw [h1, h2]

/-- Witness for C1 at the spec's dedup example: duplicated
`Commercial General Liability / GL-12345` rows yield exactly one record, and
the output keys are pairwise distinct. -/
theorem C1_dedup_unique_witness :
    noContinuationRowsB dedupTable = true ∧
    (parse_policy_table dedupTable).Pairwise
      (fun p q => (p.typeOfInsurance, p.policyNumber)
        ≠ (q.typeOfInsurance, q.policyNumber)) ∧
    (parse_policy_table dedupTable).length = 1 :=
  ⟨by decide, C1_dedup_unique dedupTable (by decide), by decide⟩

/-! ## C4 — continuation-row limit merge -/

/-- Type detection only touches the type queue. -/
theorem stepType_fields (cols : Cols) (s : ScanState) (row : Row) :
    (stepType cols s row).seen = s.seen ∧
    (stepType cols s row).lastPolicyIdx = s.lastPolicyIdx ∧
    (stepType cols s row).pendingLimitNames = s.pendingLimitNames := by
  simp only [stepType]
  split_ifs <;> exact ⟨rfl, rfl, rfl⟩

/-- Letter detection only touches the carried letter. -/
theorem stepLetter_fields (cols : Cols) (s : ScanState) (row : Row) :
    (stepLetter cols s row).seen = s.seen ∧
    (stepLetter cols s row).lastPolicyIdx = s.lastPolicyIdx ∧
    (stepLetter cols s row).pendingLimitNames = s.pendingLimitNames := by
  simp only [stepLetter]
  split_ifs <;> exact ⟨rfl, rfl, rfl⟩

set_option maxHeartbeats 1000000 in
/-- C4: a grid row with no policy-number cell but nonempty collected limits,
while a previously emitted policy exists, merges the limit pairs into that
policy's limits, adds the limit names to the pending-limit-name set, and —
when that policy's type is still `"Other"` — relabels it with the first
matching limits → type inference rule; the row emits no new record. -/
theorem C4_continuation_merge (cols : Cols) (s : ScanState) (row : Row)
    (i : Nat) (p : Policy)
    (hrow : row ≠ [])
    (hpn : cellStr row cols.pn = [])
    (hlim : collect_limits_range row cols.limits ≠ [])
    (hidx : s.lastPolicyIdx = some i)
    (hget : s.policies.get? i = some p) :
    (scanRow cols s row).policies.length = s.policies.length ∧
    (scanRow cols s row).policies =
      s.policies.set i
        { p with
          typeOfInsurance :=
            (if p.typeOfInsurance = "Other".data ∧
                infer_type_from_limits (setAddAll s.pendingLimitNames
                  ((collect_limits_range row cols.limits).map Prod.fst))
                  ≠ "Other".data
             then infer_type_from_limits (setAddAll s.pendingLimitNames
                  ((collect_limits_range row cols.limits).map Prod.fst))
             else p.typeOfInsurance)
          limits := some (dictUpdate (p.limits.getD [])
            (collect_limits_range row cols.limits)) } ∧
    (scanRow cols s row).pendingLimitNames =
      setAddAll s.pendingLimitNames
        ((collect_limits_range row cols.limits).map Prod.fst) ∧
    (scanRow cols s row).lastPolicyIdx = s.lastPolicyIdx := by
  have hpol : (stepLetter cols (stepType cols s row) row).policies = s.policies := by
    rw [stepLetter_policies, stepType_policies]
  obtain ⟨-, hlt1, hpd1⟩ := stepType_fields cols s row
  obtain ⟨-, hlt2, hpd2⟩ := stepLetter_fields cols (stepType cols s row) row
  have hltIdx : (stepLetter cols (stepType cols s row) row).lastPolicyIdx
      = s.lastPolicyIdx := by rw [hlt2, hlt1]
  have hpend : (stepLetter cols (stepType cols s row) row).pendingLimitNames
      = s.pendingLimitNames := by rw [hpd2, hpd1]
  have hguard : (decide (cellStr row cols.pn = []) &&
      decide (collect_limits_range row cols.limits ≠ []) &&
      (stepLetter cols (stepType cols s row) row).lastPolicyIdx.isSome) = true := by
    rw [hltIdx, hidx]
    simp [hpn, hlim]
  have hidx2 : (stepLetter cols (stepType cols s row) row).lastPolicyIdx = some i := by
    rw [hltIdx, hidx]
  simp only [scanRow]
  rw [if_neg hrow, if_pos hguard]
  simp only [contStep, hidx2, hpol, hget, hpend]
  by_cases hOther : p.typeOfInsurance = "Other".data
  · by_cases hInf : infer_type_from_limits (setAddAll s.pendingLimitNames
        ((collect_limits_range row cols.limits).map Prod.fst)) = "Other".data
    · have hc : ¬ (p.typeOfInsurance = "Other".data ∧
          infer_type_from_limits (setAddAll s.pendingLimitNames
            ((collect_limits_range row cols.limits).map Prod.fst)) ≠ "Other".data) := by
        intro hcontra
        exact hcontra.2 hInf
      refine ⟨?_, ?_, ?_, ?_⟩ <;>
        simp [hc, hOther, hInf, List.length_set, hidx]
    · have hc : p.typeOfInsurance = "Other".data ∧
          infer_type_from_limits (setAddAll s.pendingLimitNames
            ((collect_limits_range row cols.limits).map Prod.fst)) ≠ "Other".data :=
        ⟨hOther, hInf⟩
      refine ⟨?_, ?_, ?_, ?_⟩ <;>
        simp [hc, hOther, hInf, List.length_set, hidx]
  · have hc : ¬ (p.typeOfInsurance = "Other".data ∧
        infer_type_from_limits (setAddAll s.pendingLimitNames
          ((collect_limits_range row cols.limits).map Prod.fst)) ≠ "Other".data) := by
      intro hcontra
      exact hOther hcontra.1
    refine ⟨?_, ?_, ?_, ?_⟩ <;>
      simp [hc, hOther, List.length_set, hidx]

/-- The spec's continuation-merge example: an `Other`-typed `WC-1` policy. -/
def wc1Policy : Policy :=
  ⟨"Other".data, "WC-1".data, "2024-01-01".data, "2025-01-01".data, none, none⟩

/-- Scan state right after emitting `wc1Policy`. -/
def wc1State : ScanState :=
  ⟨[wc1Policy], ["Other|WC-1".data], [], [], [], some 0, []⟩

/-- A continuation row carrying a `PER STATUTE` limit of $1,000,000. -/
def perStatuteRow1M : Row :=
  [none, none, none, none, none, some ("PER STATUTE".data), some ("$1,000,000".data)]

/-- Witness for C4 at the spec's example: the continuation row merges the
`PER STATUTE` limit into `WC-1`, relabels it `Workers Compensation`, extends
the pending-limit-name set, and emits nothing new. -/
theorem C4_continuation_merge_witness :
    (perStatuteRow1M ≠ [] ∧
      cellStr perStatuteRow1M 2 = [] ∧
      collect_limits_range perStatuteRow1M 5 ≠ [] ∧
      wc1State.lastPolicyIdx = some 0 ∧
      wc1State.policies.get? 0 = some wc1Policy) ∧
    ((scanRow ⟨2, 3, 4, 5, 0⟩ wc1State perStatuteRow1M).policies.length
        = wc1State.policies.length ∧
      (scanRow ⟨2, 3, 4, 5, 0⟩ wc1State perStatuteRow1M).policies =
        wc1State.policies.set 0
          { wc1Policy with
            typeOfInsurance :=
              (if wc1Policy.typeOfInsurance = "Other".data ∧
                  infer_type_from_limits (setAddAll wc1State.pendingLimitNames
                    ((collect_limits_range perStatuteRow1M 5).map Prod.fst))
                    ≠ "Other".data
               then infer_type_from_limits (setAddAll wc1State.pendingLimitNames
                    ((collect_limits_range perStatuteRow1M 5).map Prod.fst))
               else wc1Policy.typeOfInsurance)
            limits := some (dictUpdate (wc1Policy.limits.getD [])
              (collect_limits_range perStatuteRow1M 5)) } ∧
      (scanRow ⟨2, 3, 4, 5, 0⟩ wc1State perStatuteRow1M).pendingLimitNames =
        setAddAll wc1State.pendingLimitNames
          ((collect_limits_range perStatuteRow1M 5).map Prod.fst) ∧
      (scanRow ⟨2, 3, 4, 5, 0⟩ wc1State perStatuteRow1M).lastPolicyIdx
        = wc1State.lastPolicyIdx) ∧
    (scanRow ⟨2, 3, 4, 5, 0⟩ wc1State perStatuteRow1M).policies =
      [⟨"Workers Compensation".data, "WC-1".data, "2024-01-01".data,
        "2025-01-01".data, some [("PER STATUTE".data, "$1,000,000".data)], none⟩] :=
  ⟨⟨by decide, by decide, by decide, by decide, by decide⟩,
   C4_continuation_merge ⟨2, 3, 4, 5, 0⟩ wc1State perStatuteRow1M 0 wc1Policy
     (by decide) (by decide) (by decide) (by decide) (by decide),
   by decide⟩

/-! ## C9 — layout dispatch -/

/-- C9: with at least three extracted tables whose first table has no
`POLICY NUMBER` cell, the orchestrator runs the three-table layout (table 0
to the header interpreter, table 1 to the policy grid, table 2 to the
footer); in every other case the mega-table path runs. -/
theorem C9_layout_dispatch (tables : List Table) (h3 : 3 ≤ tables.length) :
    (has_policy_header (tables.getD 0 []) = false →
      parseTables tables = (parse_header_table (tables.getD 0 [])).map
        (fun h => assemble (some h) (parse_policy_table (tables.getD 1 []))
          (parse_footer_table (tables.getD 2 [])))) ∧
    (has_policy_header (tables.getD 0 []) = true →
      parseTables tables = megaPath tables) := by
  match tables, h3 with
  | t0 :: t1 :: t2 :: rest, _ =>
    have h0 : ((t0 :: t1 :: t2 :: rest : List Table).getD 0 []) = t0 := rfl
    constructor
    · intro h
      rw [h0] at h
      simp only [parseTables, h, Bool.not_false, if_true]
      cases hph : parse_header_table t0 <;> simp [Except.map, hph]
    · intro h
      rw [h0] at h
      simp [parseTables, h]

/-- Witness for C9: three label-free tables dispatch to the three-table
interpreters, and a leading policy-grid table forces the mega-table path. -/
theorem C9_layout_dispatch_witness :
    (3 ≤ ([[[none]], [[none]], [[none]]] : List Table).length ∧
      has_policy_header [[none]] = false ∧
      parseTables [[[none]], [[none]], [[none]]]
        = (parse_header_table [[none]]).map
            (fun h => assemble (some h) (parse_policy_table [[none]])
              (parse_footer_table [[none]]))) ∧
    (has_policy_header dedupTable = true ∧
      parseTables [dedupTable, [[none]], [[none]]]
        = megaPath [dedupTable, [[none]], [[none]]]) :=
  ⟨⟨by decide, by decide,
    (C9_layout_dispatch [[[none]], [[none]], [[none]]] (by decide)).1 (by decide)⟩,
   by decide,
   (C9_layout_dispatch [dedupTable, [[none]], [[none]]] (by decide)).2 (by decide)⟩

/-! ## C2 — totality of the interpreters -/

/-- C2 counterexample: a header table whose standalone `PRODUCER` label row
is followed by an empty row makes the header interpreter (and hence the
whole parse) raise `IndexError` (`row[0]` on an empty list), modelled as
`Except.error`. -/
theorem C2_empty_row_counterexample :
    parse_header_table [[some ("PRODUCER".data)], []] = .error () ∧
    parseTables [[[some ("PRODUCER".data)], []]] = .error () := by
  exact ⟨rfl, rfl⟩

/-- The post-loop label walk returns normally on nonempty rows. -/
theorem headerWalk_ok (stopFn : Str → Bool) :
    ∀ (rows : List Row) (acc : List Str), (∀ r ∈ rows, r ≠ []) →
      ∃ l, headerWalk stopFn rows acc = .ok l := by
  intro rows
  induction rows with
  | nil => intro acc _; exact ⟨acc, rfl⟩
  | cons r rest ih =>
    intro acc h
    cases r with
    | nil => exact absurd rfl (h [] (List.mem_cons_self _ _))
    | cons c0 cs =>
      have hrest : ∀ r ∈ rest, r ≠ [] := fun r hr => h r (List.mem_cons_of_mem _ hr)
      simp only [headerWalk]
      split_ifs with h1 h2
      · exact ih acc hrest
      · exact ⟨acc, rfl⟩
      · exact ih (acc ++ [cellClean c0]) hrest

/-- Rows of the look-below slices are rows of the table. -/
theorem mem_rowsBelow5 (table : Table) (idx : Nat) (r : Row)
    (h : r ∈ rowsBelow5 table idx) : r ∈ table := by
  unfold rowsBelow5 at h
  exact List.mem_of_mem_drop (List.mem_of_mem_take h)

/-- The producer walk returns normally on a table with nonempty rows. -/
theorem applyProducerWalk_ok (table : Table) (acc : HeaderAcc)
    (h : ∀ r ∈ table, r ≠ ([] : Row)) :
    ∃ acc', applyProducerWalk table acc = .ok acc' := by
  unfold applyProducerWalk
  cases acc.producerRowIdx with
  | none => exact ⟨acc, rfl⟩
  | some idx =>
    dsimp only
    split_ifs with h1
    · obtain ⟨l, hl⟩ := headerWalk_ok producerWalkStop (rowsBelow5 table idx) []
        (fun r hr => h r (mem_rowsBelow5 table idx r hr))
      rw [hl]
      cases l with
      | nil => exact ⟨acc, rfl⟩
      | cons p0 rest => exact ⟨_, rfl⟩
    · exact ⟨acc, rfl⟩

/-- The insured walk returns normally on a table with nonempty rows. -/
theorem applyInsuredWalk_ok (table : Table) (acc : HeaderAcc)
    (h : ∀ r ∈ table, r ≠ ([] : Row)) :
    ∃ acc', applyInsuredWalk table acc = .ok acc' := by
  unfold applyInsuredWalk
  cases acc.insuredRowIdx with
  | none => exact ⟨acc, rfl⟩
  | some idx =>
    dsimp only
    split_ifs with h1
    · obtain ⟨l, hl⟩ := headerWalk_ok insuredWalkStop (rowsBelow5 table idx) []
        (fun r hr => h r (mem_rowsBelow5 table idx r hr))
      rw [hl]
      cases l with
      | nil => exact ⟨acc, rfl⟩
      | cons p0 rest => exact ⟨_, rfl⟩
    · exact ⟨acc, rfl⟩

/-- The header interpreter returns normally on a table with nonempty rows. -/
theorem parse_header_table_ok (table : Table)
    (h : ∀ r ∈ table, r ≠ ([] : Row)) :
    ∃ hd, parse_header_table table = .ok hd := by
  unfold parse_header_table
  dsimp only
  obtain ⟨a2, h2⟩ := applyProducerWalk_ok table (headerRowsGo table 0 initHeader table) h
  rw [h2]
  dsimp only
  obtain ⟨a3, h3⟩ := applyInsuredWalk_ok table a2 h
  rw [h3]
  exact ⟨_, rfl⟩

/-- One mega-table step returns normally on a table with nonempty rows. -/
theorem megaTableStep_ok (st : MegaState) (t : Table)
    (h : ∀ r ∈ t, r ≠ ([] : Row)) :
    ∃ st', megaTableStep st t = .ok st' := by
  obtain ⟨hd, hhd⟩ := parse_header_table_ok t h
  unfold megaTableStep
  by_cases h1 : has_policy_header t = true
  · rw [if_pos h1, hhd]
    exact ⟨_, rfl⟩
  · rw [if_neg h1]
    dsimp only
    by_cases h2 : megaProducerName st.headerData = []
    · rw [if_pos h2, hhd]
      dsimp only
      by_cases h3 : hd.producer.name ≠ []
      · rw [if_pos h3]
        dsimp only
        cases st.certificateHolder <;> exact ⟨_, rfl⟩
      · rw [if_neg h3]
        dsimp only
        cases st.certificateHolder <;> exact ⟨_, rfl⟩
    · rw [if_neg h2]
      dsimp only
      cases st.certificateHolder <;> exact ⟨_, rfl⟩

/-- The mega-table scan returns normally when every row is nonempty. -/
theorem megaScan_ok : ∀ (tables : List Table) (st : MegaState),
    (∀ t ∈ tables, ∀ r ∈ t, r ≠ ([] : Row)) →
    ∃ st', megaScan st tables = .ok st' := by
  intro tables
  induction tables with
  | nil => intro st _; exact ⟨st, rfl⟩
  | cons t rest ih =>
    intro st h
    obtain ⟨st2, hst2⟩ := megaTableStep_ok st t (h t (List.mem_cons_self _ _))
    simp only [megaScan, hst2]
    exact ih st2 (fun t' ht' => h t' (List.mem_cons_of_mem _ ht'))

/-- C2 (amended): for every list of tables in which every row is nonempty —
any cell contents, absent cells, any row lengths of at least one — the
header, policy-grid, and footer interpreters and the orchestrator terminate
normally with a result; the only internal failure is the header
interpreter's `row[0]` on an empty row below a standalone
`PRODUCER`/`INSURED` label, as the counterexample shows. -/
theorem C2_no_exception (tables : List Table)
    (h : ∀ t ∈ tables, ∀ r ∈ t, r ≠ ([] : Row)) :
    ∃ res, parseTables tables = .ok res := by
  match tables with
  | [] => exact ⟨_, rfl⟩
  | [t0] =>
    unfold parseTables megaPath
    obtain ⟨st, hst⟩ := megaScan_ok [t0] ⟨none, [], none⟩ h
    rw [hst]
    exact ⟨_, rfl⟩
  | [t0, t1] =>
    unfold parseTables megaPath
    obtain ⟨st, hst⟩ := megaScan_ok [t0, t1] ⟨none, [], none⟩ h
    rw [hst]
    exact ⟨_, rfl⟩
  | t0 :: t1 :: t2 :: rest =>
    unfold parseTables
    dsimp only
    by_cases h1 : (!has_policy_header t0) = true
    · rw [if_pos h1]
      obtain ⟨hd, hhd⟩ := parse_header_table_ok t0
        (h t0 (List.mem_cons_self _ _))
      rw [hhd]
      exact ⟨_, rfl⟩
    · rw [if_neg h1]
      unfold megaPath
      obtain ⟨st, hst⟩ := megaScan_ok (t0 :: t1 :: t2 :: rest) ⟨none, [], none⟩ h
      rw [hst]
      exact ⟨_, rfl⟩

/-- Witness for C2: the three-blank-table input has only nonempty rows and
parses to a result. -/
theorem C2_no_exception_witness :
    (∀ t ∈ ([[[none]], [[none]], [[none]]] : List Table), ∀ r ∈ t, r ≠ ([] : Row)) ∧
    ∃ res, parseTables [[[none]], [[none]], [[none]]] = .ok res :=
  ⟨by decide, C2_no_exception [[[none]], [[none]], [[none]]] (by decide)⟩

/-! ## C3 — the insured default -/

/-- C3 counterexample: on three blank-cell tables no insured can be
resolved, yet the three-table path adopts the header dict parsed from
table 0 and the insured name comes out as the empty string, not
`"Unknown"`. -/
theorem C3_empty_insured_counterexample :
    (parseTables [[[none]], [[none]], [[none]]]).map (fun r => r.insured.name)
      = .ok [] ∧ ([] : Str) ≠ ("Unknown".data) :=
  ⟨rfl, by decide⟩

/-- The insured carried by an optional header dict. -/
def hdInsured : Option HeaderResult → Option Insured
  | none => none
  | some h => some h.insured

/-- One mega-table step either keeps the carried insured or adopts the one
parsed from this table (the insurer-merge branch keeps the old insured). -/
theorem megaTableStep_insured (st st' : MegaState) (t : Table)
    (h : megaTableStep st t = .ok st') :
    hdInsured st'.headerData = hdInsured st.headerData ∨
    ∃ hd, parse_header_table t = .ok hd ∧
      hdInsured st'.headerData = some hd.insured := by
  unfold megaTableStep at h
  by_cases h1 : has_policy_header t = true
  · rw [if_pos h1] at h
    cases hp : parse_header_table t with
    | error e => rw [hp] at h; exact Except.noConfusion h
    | ok hd =>
      rw [hp] at h
      dsimp only at h
      injection h with h2
      subst h2
      dsimp only
      by_cases h2 : megaProducerName st.headerData = []
      · rw [if_pos h2]
        exact Or.inr ⟨hd, rfl, rfl⟩
      · rw [if_neg h2]
        by_cases h3 : hd.producer.name ≠ []
        · rw [if_pos h3]
          cases hsd : st.headerData with
          | none => exact Or.inl rfl
          | some h0 => exact Or.inl (by simp [hdInsured])
        · rw [if_neg h3]
          exact Or.inl rfl
  · rw [if_neg h1] at h
    dsimp only at h
    by_cases h2 : megaProducerName st.headerData = []
    · rw [if_pos h2] at h
      cases hp : parse_header_table t with
      | error e => rw [hp] at h; dsimp only at h; exact Except.noConfusion h
      | ok hd =>
        rw [hp] at h
        dsimp only at h
        by_cases h3 : hd.producer.name ≠ []
        · rw [if_pos h3] at h
          dsimp only at h
          cases hch : st.certificateHolder with
          | some c =>
            rw [hch] at h
            injection h with h4
            subst h4
            exact Or.inr ⟨hd, rfl, rfl⟩
          | none =>
            rw [hch] at h
            injection h with h4
            subst h4
            exact Or.inr ⟨hd, rfl, rfl⟩
        · rw [if_neg h3] at h
          dsimp only at h
          cases hch : st.certificateHolder with
          | some c =>
            rw [hch] at h
            injection h with h4
            subst h4
            exact Or.inl rfl
          | none =>
            rw [hch] at h
            injection h with h4
            subst h4
            exact Or.inl rfl
    · rw [if_neg h2] at h
      dsimp only at h
      cases hch : st.certificateHolder with
      | some c =>
        rw [hch] at h
        injection h with h4
        subst h4
        exact Or.inl rfl
      | none =>
        rw [hch] at h
        injection h with h4
        subst h4
        exact Or.inl rfl

/-- The mega-table scan either never adopts a header dict or ends with an
insured parsed from one of the scanned tables. -/
theorem megaScan_insured : ∀ (tables : List Table) (st st' : MegaState),
    megaScan st tables = .ok st' →
    hdInsured st'.headerData = hdInsured st.headerData ∨
    ∃ t ∈ tables, ∃ hd, parse_header_table t = .ok hd ∧
      hdInsured st'.headerData = some hd.insured := by
  intro tables
  induction tables with
  | nil =>
    intro st st' h
    have h2 : (Except.ok st : Except Unit MegaState) = Except.ok st' := h
    injection h2 with h3
    subst h3
    exact Or.inl rfl
  | cons t rest ih =>
    intro st st' h
    unfold megaScan at h
    cases hstep : megaTableStep st t with
    | error e => rw [hstep] at h; exact Except.noConfusion h
    | ok st2 =>
      rw [hstep] at h
      dsimp only at h
      rcases ih st2 st' h with h2 | ⟨t', ht', hd, hhd, heq⟩
      · rcases megaTableStep_insured st st2 t hstep with h3 | ⟨hd, hhd, heq⟩
        · exact Or.inl (h2.trans h3)
        · exact Or.inr ⟨t, List.mem_cons_self _ _, hd, hhd, h2.trans heq⟩
      · exact Or.inr ⟨t', List.mem_cons_of_mem _ ht', hd, hhd, heq⟩

/-- On the mega path the result's insured is the `"Unknown"` placeholder
exactly as `assemble` receives no header dict; otherwise it is the insured
parsed from one of the tables. -/
theorem megaPath_insured (tables : List Table) (r : ParsedResult)
    (h : megaPath tables = .ok r) :
    r.insured = ⟨"Unknown".data, none⟩ ∨
    ∃ t ∈ tables, ∃ hd, parse_header_table t = .ok hd ∧
      r.insured = hd.insured := by
  unfold megaPath at h
  cases hs : megaScan ⟨none, [], none⟩ tables with
  | error e => rw [hs] at h; exact Except.noConfusion h
  | ok st =>
    rw [hs] at h
    dsimp only at h
    injection h with h2
    subst h2
    rcases megaScan_insured tables _ _ hs with h2 | ⟨t, ht, hd, hhd, heq⟩
    · left
      cases hsd : st.headerData with
      | none => simp [assemble, hsd]
      | some h0 => rw [hsd] at h2; exact absurd h2 (by simp [hdInsured])
    · right
      refine ⟨t, ht, hd, hhd, ?_⟩
      cases hsd : st.headerData with
      | none => rw [hsd] at heq; exact absurd heq (by simp [hdInsured])
      | some h0 =>
        rw [hsd] at heq
        simp only [hdInsured, Option.some.injEq] at heq
        simp [assemble, hsd, heq]

/-- C3 (amended): whenever the parse succeeds, the result's insured is
either the `"Unknown"` placeholder — used exactly when no header dict was
adopted — or the insured of a header dict parsed from one of the input
tables, which can itself carry an empty name when an `INSURED` region was
present but unresolvable; the counterexample shows an empty-string insured
name on an input that resolves no insured party. -/
theorem C3_insured_source (tables : List Table) (r : ParsedResult)
    (h : parseTables tables = .ok r) :
    r.insured = ⟨"Unknown".data, none⟩ ∨
    ∃ t ∈ tables, ∃ hd, parse_header_table t = .ok hd ∧
      r.insured = hd.insured := by
  match tables with
  | [] => exact megaPath_insured [] r h
  | [t0] => exact megaPath_insured [t0] r h
  | [t0, t1] => exact megaPath_insured [t0, t1] r h
  | t0 :: t1 :: t2 :: rest =>
    unfold parseTables at h
    dsimp only at h
    by_cases h1 : (!has_policy_header t0) = true
    · rw [if_pos h1] at h
      cases hp : parse_header_table t0 with
      | error e => rw [hp] at h; exact Except.noConfusion h
      | ok hd =>
        rw [hp] at h
        dsimp only at h
        injection h with h2
        subst h2
        exact Or.inr ⟨t0, List.mem_cons_self _ _, hd, hp, rfl⟩
    · rw [if_neg h1] at h
      exact megaPath_insured _ r h

/-- Witness for C3: the empty table list parses to a result whose insured
is the `"Unknown"` placeholder. -/
theorem C3_insured_source_witness :
    parseTables [] = .ok (assemble none [] none) ∧
    ((assemble none [] none).insured = ⟨"Unknown".data, none⟩ ∨
     ∃ t ∈ ([] : List Table), ∃ hd, parse_header_table t = .ok hd ∧
       (assemble none [] none).insured = hd.insured) :=
  ⟨rfl, C3_insured_source [] (assemble none [] none) rfl⟩
